import Mathlib

/-!
Shallow embedding of the `public_openalex` bibliometrics pipeline
(Python scripts `step1` … `step12`, `orcid_scraper.py`) together with
theorems settling the specification's claims against the embedded code.

Conventions used throughout:
* CSV cells are modelled as `Option String` (`none` models a pandas `NaN`).
* Machine integers of the scripts are modelled as `Int` / `Nat`.
* External HTTP traffic is modelled by passing the response data in as an
  explicit function argument, so every embedded script is a pure function
  of its inputs and of the responses it would receive.
-/

namespace OpenAlex

/-! ## step7_openalex_institutions_lineage.py

One row of `enriched_institutions.csv`, with the columns the script uses.
`children_ids` / `parent_ids` model the raw CSV cells ("; "-joined id
lists, possibly `NaN`). -/

structure InstRow where
  id : String
  display_name : String
  author_count : Int
  works_count : Int
  cited_by_count : Int
  children_ids : Option String
  parent_ids : Option String
deriving DecidableEq, Repr

/-- Python's `s.split("; ")`: split at each non-overlapping occurrence of
the two-character separator, scanning left to right.  The accumulator holds
the current piece reversed. -/
def splitSemiAux : List Char → List Char → List (List Char)
  | [], acc => [acc.reverse]
  | ';' :: ' ' :: rest, acc => acc.reverse :: splitSemiAux rest []
  | c :: rest, acc => splitSemiAux rest (c :: acc)

/-- `s.split("; ")` on strings. -/
def pySplitSemi (s : String) : List String :=
  (splitSemiAux s.toList []).map List.asString

/-- Edges contributed by the `children_ids` cell of one row
(`_build_graph`, first branch): an edge from the row's id to each child.
The guard models `pd.notna(row['children_ids']) and row['children_ids']`
(a `NaN` or empty cell contributes nothing). -/
def childEdges (r : InstRow) : List (String × String) :=
  match r.children_ids with
  | some s => if s = "" then [] else (pySplitSemi s).map (fun child => (r.id, child))
  | none => []

/-- Edges contributed by the `parent_ids` cell of one row
(`_build_graph`, second branch): an edge from each parent to the row's id. -/
def parentEdges (r : InstRow) : List (String × String) :=
  match r.parent_ids with
  | some s => if s = "" then [] else (pySplitSemi s).map (fun p => (p, r.id))
  | none => []

/-- All edges a single row contributes, in the order `_build_graph` adds them. -/
def rowEdges (r : InstRow) : List (String × String) :=
  childEdges r ++ parentEdges r

/-- The edge list of the directed graph `_build_graph` constructs. -/
def graphEdges (df : List InstRow) : List (String × String) :=
  (df.map rowEdges).flatten

/-- The node list of the graph: every row id is added as a node, and
`add_edge` adds both endpoints of every edge as nodes. -/
def graphNodes (df : List InstRow) : List String :=
  df.map (·.id) ++ (graphEdges df).map (·.1) ++ (graphEdges df).map (·.2)

/-- One directed edge step in an edge list. -/
def EdgeStep (E : List (String × String)) (a b : String) : Prop :=
  (a, b) ∈ E

instance (E : List (String × String)) (a b : String) : Decidable (EdgeStep E a b) :=
  inferInstanceAs (Decidable ((a, b) ∈ E))

/-- Directed reachability along the edge list (reflexive-transitive closure
of single edge steps).  This is the specification-side notion of
"reachable along directed edges". -/
def Reaches (E : List (String × String)) (a b : String) : Prop :=
  Relation.ReflTransGen (EdgeStep E) a b

/-- One round of forward saturation: add the target of every edge whose
source is already in the set. -/
def stepSet (E : List (String × String)) (s : Finset String) : Finset String :=
  s ∪ ((E.filter (fun e => e.1 ∈ s)).map (·.2)).toFinset

/-- `n` rounds of forward saturation starting from `{a}`. -/
def reachSet (E : List (String × String)) (a : String) : Nat → Finset String
  | 0 => {a}
  | n + 1 => stepSet E (reachSet E a n)

/-- Every set reachable by saturation lies inside `a` plus the edge targets. -/
def univSet (E : List (String × String)) (a : String) : Finset String :=
  insert a (E.map (·.2)).toFinset

/-- The saturated forward-reachability set (running the saturation for
`(univSet E a).card` rounds reaches the fixed point). -/
def reachCloseSet (E : List (String × String)) (a : String) : Finset String :=
  reachSet E a (univSet E a).card

/-- `nx.descendants(G, a)`: all nodes reachable from `a`, excluding `a`. -/
def descendantsOf (E : List (String × String)) (a : String) : Finset String :=
  (reachCloseSet E a).erase a

/-- Reverse every edge. -/
def swapEdges (E : List (String × String)) : List (String × String) :=
  E.map (fun e => (e.2, e.1))

/-- `nx.ancestors(G, a)`: all nodes from which `a` is reachable, excluding
`a`; computed as forward reachability in the reversed graph. -/
def ancestorsOf (E : List (String × String)) (a : String) : Finset String :=
  (reachCloseSet (swapEdges E) a).erase a

structure Lineage where
  ancestors : Finset String
  descendants : Finset String
deriving DecidableEq

/-- `InstitutionLineageAnalyzer.get_full_lineage`.  `nx.ancestors` /
`nx.descendants` raise `NetworkXError` exactly when the queried node is not
in the graph; the `try`/`except` then returns empty lists, so the function
is total: -/
def get_full_lineage (df : List InstRow) (institution_id : String) : Lineage :=
  if institution_id ∈ graphNodes df then
    { ancestors := ancestorsOf (graphEdges df) institution_id
      descendants := descendantsOf (graphEdges df) institution_id }
  else
    { ancestors := ∅, descendants := ∅ }

structure HierarchyMetrics where
  institution_name : String
  direct_author_count : Int
  total_author_count : Int
  direct_works_count : Int
  total_works_count : Int
  direct_citations : Int
  total_citations : Int
  num_children : Nat
  num_ancestors : Nat
deriving DecidableEq, Repr

/-- `InstitutionLineageAnalyzer.get_hierarchy_metrics`.
`self.df[self.df['id'] == institution_id].iloc[0]` picks the first row with
the queried id and raises when there is none; the failure is modelled as
`none`.  `children_data` is the sub-table of rows whose id is in the
descendant list, and each `total_*` field adds that column sum to the
institution's own value. -/
def get_hierarchy_metrics (df : List InstRow) (institution_id : String) :
    Option HierarchyMetrics :=
  match df.find? (fun r => r.id == institution_id) with
  | none => none
  | some inst =>
    let lineage := get_full_lineage df institution_id
    let children_data := df.filter (fun r => r.id ∈ lineage.descendants)
    some {
      institution_name := inst.display_name
      direct_author_count := inst.author_count
      total_author_count := inst.author_count + (children_data.map (·.author_count)).sum
      direct_works_count := inst.works_count
      total_works_count := inst.works_count + (children_data.map (·.works_count)).sum
      direct_citations := inst.cited_by_count
      total_citations := inst.cited_by_count + (children_data.map (·.cited_by_count)).sum
      num_children := lineage.descendants.card
      num_ancestors := lineage.ancestors.card }

/-- First row of the table carrying a given id, as pandas
`df[df['id'] == i].iloc[0]` would select it. -/
def lookupRow (df : List InstRow) (i : String) : Option InstRow :=
  df.find? (fun r => r.id == i)

/-- A numeric column of the row with id `i` (`0` when `i` has no row, so
that ids without a row contribute nothing to a sum). -/
def fieldOf (df : List InstRow) (f : InstRow → Int) (i : String) : Int :=
  ((lookupRow df i).map f).getD 0

/-- A small concrete `enriched_institutions` table used by the witnesses:
`A` is the parent of `B` (via `A`'s children cell) and of `C` (via `C`'s
parent cell). -/
def exInstDf : List InstRow :=
  [ { id := "A", display_name := "Alpha", author_count := 3, works_count := 10,
      cited_by_count := 100, children_ids := some "B; C", parent_ids := none },
    { id := "B", display_name := "Beta", author_count := 2, works_count := 5,
      cited_by_count := 50, children_ids := none, parent_ids := some "A" },
    { id := "C", display_name := "Gamma", author_count := 1, works_count := 1,
      cited_by_count := 7, children_ids := none, parent_ids := some "A" } ]

/-! ## step2_combinecsvs.py -/

/-- One author record from a per-paper metadata CSV after the script adds
the `paper_number` column (only the three columns that the script's
deduplication and grouping read are modelled). -/
structure PaperRec where
  author_name : String
  author_id : String
  paper_number : Int
deriving DecidableEq, Repr

/-- Keep the first occurrence of each element, the duplicate-dropping
order of pandas `drop_duplicates`. -/
def keepFirstsAux {α : Type} [DecidableEq α] (seen : List α) : List α → List α
  | [] => []
  | a :: l =>
    if a ∈ seen then keepFirstsAux seen l
    else a :: keepFirstsAux (a :: seen) l

def keepFirsts {α : Type} [DecidableEq α] (l : List α) : List α :=
  keepFirstsAux [] l

/-- Python's `s.split(sep)` for a one-character separator. -/
def splitCharAux (sep : Char) : List Char → List Char → List (List Char)
  | [], acc => [acc.reverse]
  | c :: rest, acc =>
    if c = sep then acc.reverse :: splitCharAux sep rest []
    else splitCharAux sep rest (c :: acc)

/-- `x.split("/")[-1]` (the split list is never empty, so the default
never fires). -/
def lastSlashComponent (s : String) : String :=
  ((splitCharAux '/' s.toList []).map List.asString).getLastD ""

/-- Python string comparison: code-point lexicographic order on the
character lists (`Char.val` is the code point). -/
def strLtB : List Char → List Char → Bool
  | [], [] => false
  | [], _ :: _ => true
  | _ :: _, [] => false
  | a :: as, b :: bs =>
    if a.val < b.val then true
    else if b.val < a.val then false
    else strLtB as bs

def pyStrLt (s t : String) : Bool :=
  strLtB s.toList t.toList

/-- Python tuple comparison on `(author_name, author_id)` keys, the order
in which pandas `groupby` (with its default `sort=True`) emits groups. -/
def pairLe (p q : String × String) : Prop :=
  (pyStrLt p.1 q.1 || (p.1 == q.1 && (pyStrLt p.2 q.2 || p.2 == q.2))) = true

instance : DecidableRel pairLe :=
  fun _ _ => inferInstanceAs (Decidable (_ = true))

/-- Concatenating the per-paper CSVs after tagging each with its paper
number (`pd.concat(records)`). -/
def allAuthors (files : List (Int × List (String × String))) : List PaperRec :=
  (files.map (fun f =>
    f.2.map (fun a =>
      ({ author_name := a.1, author_id := a.2, paper_number := f.1 } : PaperRec)))).flatten

/-- `drop_duplicates(subset=["author_name", "author_id", "paper_number"])`:
with exactly those three columns modelled this is record-level
deduplication keeping first occurrences. -/
def dedupTriples (recs : List PaperRec) : List PaperRec :=
  keepFirsts recs

def pairOf (r : PaperRec) : String × String :=
  (r.author_name, r.author_id)

/-- The group keys of `groupby(["author_name", "author_id"])`, in pandas'
sorted key order. -/
def groupKeys (recs : List PaperRec) : List (String × String) :=
  List.insertionSort pairLe (keepFirsts (recs.map pairOf))

/-- `sorted(set(x))` over the `paper_number` values of one group. -/
def groupedPapers (recs : List PaperRec) (p : String × String) : List Int :=
  List.insertionSort (· ≤ ·)
    (keepFirsts ((recs.filter (fun r => pairOf r = p)).map (·.paper_number)))

/-- One row of the final `authors_metadata.csv`
(`Author, No. Papers, Notes, OA_Profile, OA_ID, Papers`). -/
structure RosterRow where
  author : String
  noPapers : Nat
  notes : String
  oaProfile : String
  oaId : String
  papersStr : String
deriving DecidableEq, Repr

/-- The whole of `step2_combinecsvs.py`: concatenate, deduplicate, group
by author pair, and derive the final fields. -/
def combineRoster (files : List (Int × List (String × String))) : List RosterRow :=
  let recs := dedupTriples (allAuthors files)
  (groupKeys recs).map (fun p =>
    let papers := groupedPapers recs p
    { author := p.1
      noPapers := papers.length
      notes := ""
      oaProfile := p.2
      oaId := lastSlashComponent p.2
      papersStr := String.intercalate ", " (papers.map (fun n => toString n)) })

/-- The set of paper numbers in which a given `(author_name, author_id)`
pair occurs in the combined input. -/
def papersOfPair (recs : List PaperRec) (p : String × String) : Finset Int :=
  ((recs.filter (fun r => pairOf r = p)).map (·.paper_number)).toFinset

/-- Concrete input for the C3 witness: two papers with an overlapping
author and a duplicated record. -/
def exFiles : List (Int × List (String × String)) :=
  [ (2, [("Ana B", "https://openalex.org/A1"), ("Cy D", "https://openalex.org/A2")]),
    (1, [("Ana B", "https://openalex.org/A1"), ("Ana B", "https://openalex.org/A1")]) ]

/-! ## Shared string helpers -/

/-- Python's `str.strip()` on a character list: drop whitespace from both
ends. -/
def pyStripList (l : List Char) : List Char :=
  ((l.dropWhile Char.isWhitespace).reverse.dropWhile Char.isWhitespace).reverse

/-- Python's `s.strip()`. -/
def pyStrip (s : String) : String :=
  (pyStripList s.toList).asString

/-! ## step4_openalex_profile_works_scraper.py -/

/-- One work entry of an OpenAlex `/works` response.  Only the identifying
field is modelled: the remaining output columns (title, DOI, year, topics,
co-authors, …) are all read from the same entry and do not affect which
rows exist. -/
structure Work where
  wid : String
deriving DecidableEq, Repr

/-- One page of the paginated `/works` response: HTTP status code, the
`results` list and `meta.next_cursor`. -/
structure PageResp where
  status : Nat
  results : List Work
  next_cursor : Option String
deriving Repr

/-- `fetch_all_works`: follow `next_cursor` pagination, stopping when the
cursor is falsy (`None` or the empty string) or a page returns a non-200
status (`break`, keeping the works gathered so far).  `resp` maps a cursor
to the page the API returns for it; `fuel` bounds the number of pages
(the Python `while` loop relies on the API's cursors terminating). -/
def fetch_all_works (resp : String → PageResp) : Nat → Option String → List Work
  | _, none => []
  | 0, some _ => []
  | fuel + 1, some c =>
    if c = "" then []
    else if (resp c).status ≠ 200 then []
    else (resp c).results ++ fetch_all_works resp fuel (resp c).next_cursor

/-- `author_id.startswith("https://openalex.org/")`. -/
def startsWithOpenAlex (s : String) : Bool :=
  "https://openalex.org/".toList.isPrefixOf s.toList

/-- The output loop of `step4_openalex_profile_works_scraper.py`: for each
author row (`Author ID`, `Author Name`), skip rows whose id is not an
OpenAlex URL, otherwise fetch all works and write one output row per work
(modelled by its identifying pair `(Author ID, Work ID)`).
`resp author_id cursor` is the page returned for that author and cursor. -/
def step4OutputRows (authors : List (String × String))
    (resp : String → String → PageResp) (fuel : Nat) : List (String × String) :=
  (authors.map (fun a =>
    let author_id := pyStrip a.1
    if startsWithOpenAlex author_id then
      (fetch_all_works (resp author_id) fuel (some "*")).map
        (fun w => (author_id, w.wid))
    else [])).flatten

/-- A works-scraper response in which the first page succeeds with one
work and names a second cursor, and every later page returns HTTP 500. -/
def exResp206 : String → PageResp := fun c =>
  if c = "*" then { status := 200, results := [{ wid := "W1" }], next_cursor := some "c2" }
  else { status := 500, results := [], next_cursor := none }

/-- A single-author input row for the works scraper. -/
def exAuthors : List (String × String) :=
  [("https://openalex.org/A1", "Ann")]

/-- A works-scraper response that succeeds on every page with two works
and no further cursor. -/
def exRespTwoWorks : String → String → PageResp := fun _ _ =>
  { status := 200, results := [{ wid := "W1" }, { wid := "W2" }], next_cursor := none }

/-! ## orcid_scraper.py -/

/-- An ORCID profile page, modelled after the pieces the scraper extracts
from the HTML: the HTTP status and the four section strings the CSS
selectors would yield. -/
structure OrcidPage where
  status : Nat
  employment : String
  keywords : String
  country : String
  websites : String
deriving DecidableEq, Repr

/-- The dict `scrape_orcid_profile` returns: `none` models the empty
(falsy) dict returned when the page's status is not 200. -/
structure OrcidData where
  employment : String
  keywords : String
  country : String
  websites : String
deriving DecidableEq, Repr

def scrape_orcid_profile (page : OrcidPage) : Option OrcidData :=
  if page.status ≠ 200 then none
  else some { employment := page.employment, keywords := page.keywords,
              country := page.country, websites := page.websites }

/-- One author row of the ORCID scraper, with its `ORCID` URL cell and the
four ORCID output columns (absent on input, `none` written as empty). -/
structure OrcidAuthorRow where
  orcid : String
  base : String
  orcidEmployment : Option String
  orcidKeywords : Option String
  orcidCountry : Option String
  orcidWebsites : Option String
deriving DecidableEq, Repr

/-- `orcid_url.startswith("https://orcid.org/")`. -/
def startsWithOrcidUrl (s : String) : Bool :=
  "https://orcid.org/".toList.isPrefixOf s.toList

/-- The per-row body of the ORCID scraper's output loop: scrape when the
`ORCID` cell is a profile URL and merge the scraped columns into the row
when the result is truthy; in every case the (possibly unchanged) row is
written. -/
def processOrcidRow (pages : String → OrcidPage) (a : OrcidAuthorRow) :
    OrcidAuthorRow :=
  let url := pyStrip a.orcid
  if url ≠ "" ∧ startsWithOrcidUrl url then
    match scrape_orcid_profile (pages url) with
    | some d =>
      { a with orcidEmployment := some d.employment
               orcidKeywords := some d.keywords
               orcidCountry := some d.country
               orcidWebsites := some d.websites }
    | none => a
  else a

/-- The whole output loop: every input row is written, enriched or not. -/
def orcidOutputRows (pages : String → OrcidPage)
    (authors : List OrcidAuthorRow) : List OrcidAuthorRow :=
  authors.map (processOrcidRow pages)

/-! ## step2_openalex_profile_scraper.py -/

/-- One input row of `authors_metadata.csv` (the columns the enrichment
copies through). -/
structure RosterIn where
  author : String
  noPapers : String
  notes : String
  oaProfile : String
  oaId : String
deriving DecidableEq, Repr

/-- The parts of an OpenAlex `/people` JSON body the enrichment reads
(absent keys modelled as `none`, defaulted by `.get`).  The per-year
affiliation bookkeeping adds further columns to the same row and does not
affect which rows exist, so it is not modelled here. -/
structure AuthorData where
  orcid : Option String
  display_name : Option String
  works_count : Option Int
  cited_by_count : Option Int
deriving DecidableEq, Repr

/-- One output row of `enriched_authors_metadata.csv` (static columns). -/
structure EnrichedRow where
  author : String
  noPapers : String
  notes : String
  oaProfile : String
  oaId : String
  orcid : String
  display_name : String
  works_count : Int
  cited_by_count : Int
deriving DecidableEq, Repr

/-- `get_author_data`: the HTTP call and JSON decode are modelled by
`fetch` (an `Except.error` models any exception the call raises — both
`except` arms catch it, log, and return `None`). -/
def get_author_data (fetch : String → Except String AuthorData)
    (oa_id : String) : Option AuthorData :=
  match fetch oa_id with
  | Except.ok d => some d
  | Except.error _ => none

/-- The row loop of `enrich_author_data`: a row whose fetch failed is
skipped (`if not author_data: continue`); otherwise one enriched row is
produced. -/
def enrich_author_rows (rows : List RosterIn)
    (fetch : String → Except String AuthorData) : List EnrichedRow :=
  rows.filterMap (fun row =>
    match get_author_data fetch row.oaId with
    | none => none
    | some d =>
      some { author := row.author, noPapers := row.noPapers, notes := row.notes,
             oaProfile := row.oaProfile, oaId := row.oaId,
             orcid := d.orcid.getD "", display_name := d.display_name.getD "",
             works_count := d.works_count.getD 0,
             cited_by_count := d.cited_by_count.getD 0 })

/-! ## step1.1_filternames.py -/

/-- A CSV table for the name filter: its column headers and its rows as
ordered (column, cell) pairs. -/
structure NameTable where
  cols : List String
  rows : List (List (String × Option String))
deriving DecidableEq, Repr

/-- A row's cell in a named column (first matching column, `none` when the
column is absent or the cell is `NaN`). -/
def cellOf (r : List (String × Option String)) (c : String) : Option String :=
  match r.find? (fun p => p.1 == c) with
  | some p => p.2
  | none => none

/-- `step1.1_filternames.py` after loading the CSV: when the `Raw Author
Name` column is absent the script executes `raise KeyError(...)` — an
uncaught, fatal error, modelled as `Except.error`; otherwise the rows are
filtered by the name matcher (`row_matches`, passed in as `matches` since
its target list is configuration, not control flow) and the file is
rewritten. -/
def filter_names (rowMatch : Option String → Bool) (df : NameTable) :
    Except String NameTable :=
  if "Raw Author Name" ∈ df.cols then
    Except.ok { cols := df.cols
                rows := df.rows.filter (fun r => rowMatch (cellOf r "Raw Author Name")) }
  else
    Except.error "Column 'Raw Author Name' not found"

/-- A concrete table that lacks the `Raw Author Name` column. -/
def exNoRawCol : NameTable :=
  { cols := ["Author Name"], rows := [[("Author Name", some "X")]] }

/-- A concrete table that has the `Raw Author Name` column. -/
def exRawTable : NameTable :=
  { cols := ["Raw Author Name"],
    rows := [[("Raw Author Name", some "Doe, Jane")]] }

/-- A works-scraper response that fails on every page. -/
def exRespFail : String → PageResp := fun _ =>
  { status := 404, results := [], next_cursor := none }

/-- An ORCID page server that always answers HTTP 500. -/
def exOrcidPages : String → OrcidPage := fun _ =>
  { status := 500, employment := "", keywords := "", country := "", websites := "" }

/-- A concrete author row with a valid ORCID URL. -/
def exOrcidRow : OrcidAuthorRow :=
  { orcid := "https://orcid.org/0000-0001", base := "x",
    orcidEmployment := none, orcidKeywords := none,
    orcidCountry := none, orcidWebsites := none }

/-- A profile fetch that always raises. -/
def exFetchFail : String → Except String AuthorData := fun _ =>
  Except.error "boom"

/-- A concrete roster row for the profile-scraper witnesses. -/
def exRosterIn : RosterIn :=
  { author := "Ann", noPapers := "1", notes := "",
    oaProfile := "https://openalex.org/A1", oaId := "A1" }

/-! ## step10_careertrajectory.py -/

/-- Comparison used for `country_sequence.sort()` and the sorted year
columns.  Python sorts `(year, country)` tuples lexicographically; since
the year keys come from distinct `affiliation_country_YYYY` column names
they are pairwise distinct, where tuple order coincides with year order,
so the sort is modelled on the year component (the theorems assume the
distinctness). -/
def fstLe {α : Type} (p q : Nat × α) : Prop :=
  p.1 ≤ q.1

instance {α : Type} : DecidableRel (@fstLe α) :=
  fun p q => inferInstanceAs (Decidable (p.1 ≤ q.1))

instance {α : Type} : IsTotal (Nat × α) fstLe :=
  ⟨fun p q => Nat.le_total p.1 q.1⟩

instance {α : Type} : IsTrans (Nat × α) fstLe :=
  ⟨fun _ _ _ h1 h2 => Nat.le_trans h1 h2⟩

/-- The `(year, stripped country)` pairs of the non-null
`affiliation_country_YYYY` cells, in column order (`country_sequence`
before its in-place sort). -/
def countrySequence (cells : List (Nat × Option String)) : List (Nat × String) :=
  cells.filterMap (fun yc => yc.2.map (fun c => (yc.1, pyStrip c)))

/-- The consecutive-duplicate removal loop of `process_author_row`:
`prev` starts as `None` and an element is kept exactly when it differs
from `prev`. -/
def dedupConsecAux (prev : Option String) : List String → List String
  | [] => []
  | c :: l =>
    if some c = prev then dedupConsecAux prev l
    else c :: dedupConsecAux (some c) l

/-- The output row of `process_author_row`. -/
structure TrajRow where
  author : String
  oaProfile : String
  geoTrajectory : Option String
  yearsInUS : Nat
  simplified : Option String
  evenMoreSimplified : Option String
  yearCountry : List (Nat × Option String)
deriving DecidableEq, Repr

/-- `process_author_row`: build the `(year, country)` sequence from the
non-null country cells, sort it, remove consecutive duplicate countries,
and derive the trajectory strings and the `Years in the US` count. -/
def process_author_row (author oaProfile : String)
    (cells : List (Nat × Option String)) : TrajRow :=
  let country_sequence := List.insertionSort fstLe (countrySequence cells)
  let trajectory := dedupConsecAux none (country_sequence.map (·.2))
  let years_in_us := country_sequence.countP (fun yc => yc.2 == "United States")
  let uniq := keepFirsts trajectory
  let simplified : Option String :=
    if uniq.length = 1 ∧ trajectory.length > 0 then
      some "Affiliated with one country"
    else if trajectory ≠ [] then
      some ("Multinational Travel ---> " ++ trajectory.getLastD "")
    else none
  let evenMore : Option String :=
    if uniq.length = 1 ∧ trajectory.length > 0 then
      some ("Started and Ended in " ++ trajectory.headD "")
    else if trajectory ≠ [] then
      if trajectory.headD "" = trajectory.getLastD "" then
        if trajectory.length > 1 then
          some ("Started and Ended in " ++ trajectory.headD "" ++
            " (with travel in between)")
        else some ("Started and Ended in " ++ trajectory.headD "")
      else
        some ("Started in " ++ trajectory.headD "" ++ ", Ended up in " ++
          trajectory.getLastD "")
    else none
  { author := author
    oaProfile := oaProfile
    geoTrajectory :=
      if trajectory = [] then none
      else some (String.intercalate " ---> " trajectory)
    yearsInUS := years_in_us
    simplified := simplified
    evenMoreSimplified := evenMore
    yearCountry :=
      List.insertionSort fstLe (cells.map (fun yc => (yc.1, yc.2.map pyStrip))) }

/-- One input row of `process_file` (step10): the author columns, the
`affiliation_data` flag the rows are filtered on, and the per-year country
cells. -/
structure TrajInRow where
  author : String
  oaProfile : String
  affiliation_data : Bool
  cells : List (Nat × Option String)
deriving DecidableEq, Repr

/-- `process_file`'s row pipeline: keep rows with `affiliation_data ==
True`, then apply `process_author_row` to each. -/
def trajectoryRows (rows : List TrajInRow) : List TrajRow :=
  (rows.filter (fun r => r.affiliation_data)).map
    (fun r => process_author_row r.author r.oaProfile r.cells)

/-- Concrete year-country cells for the C7 witness. -/
def exCells : List (Nat × Option String) :=
  [(2021, some "United States"), (2019, some "China"),
   (2020, some "China"), (2022, none)]

/-! ## step8_openalex_author_affiliations.py -/

/-- Python's `s.upper()` (on the ASCII range the scripts use). -/
def pyUpper (s : String) : String :=
  String.mk (s.toList.map Char.toUpper)

/-- Python's `sorted` order on strings (code-point lexicographic). -/
def strLe (a b : String) : Prop :=
  (pyStrLt a b || a == b) = true

instance : DecidableRel strLe :=
  fun _ _ => inferInstanceAs (Decidable (_ = true))

/-- Python `sorted(...)` over strings. -/
def sortStrings (l : List String) : List String :=
  List.insertionSort strLe l

/-- `get_unique_countries`: the distinct non-empty countries mapped from
the row's non-null, non-empty `ID-` cells (`cmap` is the
institution-id → country dict built with `.get(id, '')`). -/
def get_unique_countries (cmap : String → String)
    (idCells : List (Option String)) : List String :=
  keepFirsts
    ((((idCells.filterMap id).filter (fun s => s ≠ "")).map cmap).filter
      (fun c => c ≠ ""))

/-- The country flags of step8's `analyze_affiliations` (the columns the
claims are about; step8 computes no `all_usa`). -/
structure Step8Flags where
  all_china : Bool
  some_china : Bool
  some_usa : Bool
  all_countries : String
deriving DecidableEq, Repr

def step8Flags (cmap : String → String)
    (idCells : List (Option String)) : Step8Flags :=
  let countries := get_unique_countries cmap idCells
  { all_china := !countries.isEmpty && countries.all (fun c => c == "China")
    some_china := countries.contains "China"
    some_usa := countries.contains "United States"
    all_countries :=
      if countries.isEmpty then ""
      else String.intercalate "; " (sortStrings countries) }

/-! ## step9_openalex_sorting.py -/

/-- `is_valid_value` of `insert_analytics`: `NaN` is invalid, and a string
is invalid when it strips-and-uppercases to `NULL` or to the empty
string. -/
def is_valid_value (v : Option String) : Bool :=
  match v with
  | none => false
  | some s => !(pyUpper (pyStrip s) == "NULL" || pyUpper (pyStrip s) == "")

/-- Collect a valid cell as `str(val).strip()`, as the `ids.append(...)` /
`countries.append(...)` / `display_names.append(...)` lines do. -/
def valCollect (v : Option String) : Option String :=
  match v with
  | some s => if is_valid_value (some s) then some (pyStrip s) else none
  | none => none

/-- Per-year `(id, country, display_name)` cells, most recent year first. -/
abbrev YearTriple : Type := Option String × Option String × Option String

def step9Ids (yearData : List YearTriple) : List String :=
  yearData.filterMap (fun t => valCollect t.1)

def step9Countries (yearData : List YearTriple) : List String :=
  yearData.filterMap (fun t => valCollect t.2.1)

def step9Names (yearData : List YearTriple) : List String :=
  yearData.filterMap (fun t => valCollect t.2.2)

/-- The ten analytics values `insert_analytics` returns for one row. -/
structure AnalyticsOut where
  affiliation_data : Bool
  unique_affiliation_count : Nat
  all_usa : Bool
  some_usa : Bool
  all_china : Bool
  some_china : Bool
  unique_country_count : Nat
  all_countries : Option String
  mostRecentAffiliation : Option String
  mostRecentCountry : Option String
deriving DecidableEq, Repr

/-- `insert_analytics` (step9): collect the valid per-year values, then
derive the flags and counts.  `unique_ids` / `unique_countries` model the
Python `set(...)`. -/
def insert_analytics (yearData : List YearTriple) : AnalyticsOut :=
  let ids := step9Ids yearData
  let countries := step9Countries yearData
  let display_names := step9Names yearData
  let unique_ids := keepFirsts ids
  let unique_countries := keepFirsts countries
  { affiliation_data := !ids.isEmpty || !countries.isEmpty || !display_names.isEmpty
    unique_affiliation_count := unique_ids.length
    all_usa := !countries.isEmpty && countries.all (fun c => c == "United States")
    some_usa := countries.any (fun c => c == "United States")
    all_china := !countries.isEmpty && countries.all (fun c => c == "China")
    some_china := countries.any (fun c => c == "China")
    unique_country_count := unique_countries.length
    all_countries :=
      if unique_countries.isEmpty then none
      else some (String.intercalate ", " (sortStrings unique_countries))
    mostRecentAffiliation := display_names.head?
    mostRecentCountry := countries.head? }

/-- A CSV cell (`none` is `NaN`) and a row with its ordered column names. -/
abbrev Cell : Type := Option String

abbrev Row : Type := List (String × Cell)

/-- The zero-width/invisible characters `clean_text` removes
(`[​-‍﻿ ]`). -/
def isInvisibleChar (c : Char) : Bool :=
  (0x200B ≤ c.toNat && c.toNat ≤ 0x200D) || c.toNat == 0xFEFF || c.toNat == 0xA0

/-- `clean_text`: on a string cell, remove invisible characters, strip
whitespace, and normalise `NULL`/empty to `None`. -/
def clean_text (v : Cell) : Cell :=
  match v with
  | none => none
  | some s =>
    let s1 := pyStrip (String.mk (s.toList.filter (fun c => !isInvisibleChar c)))
    if pyUpper s1 = "NULL" ∨ s1 = "" then none else some s1

/-- `clean_dataframe` on one row (`df.map(clean_text)` leaves the column
names untouched). -/
def cleanRow (r : Row) : Row :=
  r.map (fun p => (p.1, clean_text p.2))

/-- `inst_info`: the cleaned institutions table (rows of `(id, country)`
cells) as a lookup from id to the country cell.  `to_dict('index')` keeps
the last row of a duplicated id, hence the reversed search. -/
def instInfo (insts : List (Cell × Cell)) (x : String) : Option Cell :=
  ((insts.map (fun p => (clean_text p.1, clean_text p.2))).reverse.find?
    (fun p => p.1 == some x)).map (·.2)

/-- The mapping applied to each id cell when refreshing a country column:
`inst_info.get(x, {}).get('country') if pd.notna(x) and x in inst_info
else None`. -/
def mapCountry (insts : List (Cell × Cell)) (v : Cell) : Cell :=
  match v with
  | none => none
  | some x =>
    match instInfo insts x with
    | some c => c
    | none => none

/-- Parse a column name `pre ++ <4 digits>` to its year
(the `^affiliation_…_(\d{4})$` regexes). -/
def yearOfCol (pre : String) (col : String) : Option Nat :=
  if pre.toList.isPrefixOf col.toList then
    let rest := col.toList.drop pre.toList.length
    if rest.length = 4 && rest.all Char.isDigit then
      some (rest.foldl (fun n c => 10 * n + (c.toNat - 48)) 0)
    else none
  else none

/-- The `{year: column}` dict for one pattern, as `(year, column)` pairs
in column order. -/
def yearCols (pre : String) (cols : List String) : List (Nat × String) :=
  cols.filterMap (fun c => (yearOfCol pre c).map (fun y => (y, c)))

/-- Dict lookup (last occurrence wins, as in the Python dict build). -/
def colFor (pre : String) (cols : List String) (y : Nat) : Option String :=
  ((yearCols pre cols).reverse.find? (fun p => p.1 == y)).map (·.2)

def natGe (a b : Nat) : Prop := b ≤ a

instance : DecidableRel natGe :=
  fun a b => inferInstanceAs (Decidable (b ≤ a))

/-- `valid_years`: years having all three column kinds, sorted in
descending order. -/
def validYears (cols : List String) : List Nat :=
  List.insertionSort natGe
    (keepFirsts
      (((yearCols "affiliation_id_" cols).map (·.1)).filter
        (fun y =>
          ((yearCols "affiliation_country_" cols).map (·.1)).contains y &&
          ((yearCols "affiliation_display_name_" cols).map (·.1)).contains y)))

/-- The first cell of a named column (`row.get(col)`/`row[col]`). -/
def rowGet (r : Row) (c : String) : Cell :=
  ((r.find? (fun p => p.1 == c)).map (·.2)).getD none

def rowGetOpt (r : Row) (oc : Option String) : Cell :=
  match oc with
  | some c => rowGet r c
  | none => none

/-- Overwrite every cell of a named column
(`author_df[country_col] = ...`). -/
def setCol (r : Row) (c : String) (v : Cell) : Row :=
  r.map (fun p => if p.1 = c then (p.1, v) else p)

/-- One iteration of the country-refresh loop: overwrite the year's
country column with the institution map applied to the year's id
column. -/
def updateYear (insts : List (Cell × Cell)) (cols : List String) (y : Nat)
    (r : Row) : Row :=
  match colFor "affiliation_country_" cols y, colFor "affiliation_id_" cols y with
  | some ccol, some icol => setCol r ccol (mapCountry insts (rowGet r icol))
  | _, _ => r

/-- The whole country-refresh loop over the valid years. -/
def updateCountries (insts : List (Cell × Cell)) (cols : List String)
    (r : Row) : Row :=
  (validYears cols).foldl (fun acc y => updateYear insts cols y acc) r

/-- `analytics_columns` of step9, in source order. -/
def analyticsNames : List String :=
  ["affiliation_data", "unique_affiliation_count", "all_usa", "some_usa",
   "all_china", "some_china", "unique_country_count", "all_countries",
   "Most Recent Affiliation", "Most Recent Affiliation Country"]

/-- Drop pre-existing analytics columns. -/
def dropAnalytics (r : Row) : Row :=
  r.filter (fun p => !analyticsNames.contains p.1)

/-- The `(id, country, display_name)` cells per valid year, read off the
updated row as `insert_analytics` does. -/
def yearDataOf (cols : List String) (r : Row) :
    List YearTriple :=
  (validYears cols).map (fun y =>
    (rowGetOpt r (colFor "affiliation_id_" cols y),
     rowGetOpt r (colFor "affiliation_country_" cols y),
     rowGetOpt r (colFor "affiliation_display_name_" cols y)))

/-- The analytics values as written CSV cells, in `analytics_df` column
order (Python bools print as `True`/`False`, ints as digits). -/
def analyticsCells (a : AnalyticsOut) : List (String × Cell) :=
  [("affiliation_data", some (if a.affiliation_data then "True" else "False")),
   ("unique_affiliation_count", some (toString a.unique_affiliation_count)),
   ("all_usa", some (if a.all_usa then "True" else "False")),
   ("some_usa", some (if a.some_usa then "True" else "False")),
   ("all_china", some (if a.all_china then "True" else "False")),
   ("some_china", some (if a.some_china then "True" else "False")),
   ("unique_country_count", some (toString a.unique_country_count)),
   ("all_countries", a.all_countries),
   ("Most Recent Affiliation", a.mostRecentAffiliation),
   ("Most Recent Affiliation Country", a.mostRecentCountry)]

/-- Insert a block of columns at an index (repeated
`author_df.insert(insert_index, col, …)` over the reversed column list). -/
def insertAt (r : Row) (i : Nat) (xs : List (String × Cell)) : Row :=
  r.take i ++ xs ++ r.drop i

/-- The cleaned row's column names (`author_df.columns` after
`clean_dataframe`, before the analytics drop — the year-column patterns
are identified at that point). -/
def colsOf (r : Row) : List String :=
  (cleanRow r).map (·.1)

/-- The row after cleaning, dropping old analytics columns and refreshing
the country columns (the state of `author_df` just before
`insert_analytics` runs). -/
def updatedOf (insts : List (Cell × Cell)) (r : Row) : Row :=
  updateCountries insts (colsOf r) (dropAnalytics (cleanRow r))

/-- One row of `process_folder` (step9): clean, identify year columns,
drop old analytics columns, refresh the country columns from the
institution map, recompute the analytics, and insert them after
`i10_index`.  The whole table transformation is this applied to every row
(all steps are row-uniform). -/
def processRow (insts : List (Cell × Cell)) (r : Row) : Row :=
  insertAt (updatedOf insts r)
    ((updatedOf insts r).findIdx (fun p => p.1 == "i10_index") + 1)
    (analyticsCells (insert_analytics (yearDataOf (colsOf r) (updatedOf insts r))))

/-- pandas' default NA tokens (`pd.read_csv` with `keep_default_na=True`):
a written field equal to one of these strings is read back as `NaN`. -/
def pandasNAStrings : List String :=
  ["", "#N/A", "#N/A N/A", "#NA", "-1.#IND", "-1.#QNAN", "-NaN", "-nan",
   "1.#IND", "1.#QNAN", "<NA>", "N/A", "NA", "NULL", "NaN", "None",
   "n/a", "nan", "null"]

/-- The CSV round trip on a cell: `None` is written as the empty string;
a read field is `NaN` exactly when it is one of pandas' default NA
tokens (the empty string among them). -/
def rtCell (c : Cell) : Cell :=
  match c with
  | none => none
  | some s => if s ∈ pandasNAStrings then none else some s

def rtRow (r : Row) : Row :=
  r.map (fun p => (p.1, rtCell p.2))

/-- Invariant used in the idempotence proof: the cells of year `y`'s
country column already hold the value the refresh loop would write. -/
def goodYear (insts : List (Cell × Cell)) (cols : List String) (y : Nat)
    (r : Row) : Prop :=
  ∀ ccol icol, colFor "affiliation_country_" cols y = some ccol →
    colFor "affiliation_id_" cols y = some icol →
    ∀ p ∈ r, p.1 = ccol → p.2 = mapCountry insts (rowGet r icol)

/-- Concrete data for the C8/C9 witnesses. -/
def exCmap : String → String := fun i =>
  if i = "I1" then "China" else if i = "I2" then "China" else ""

def exIdCells : List (Option String) :=
  [some "I1", some "I2", none, some ""]

def exYearData : List YearTriple :=
  [(some "I1", some "United States", some "MIT"),
   (some "I2", some "NULL", some "  "), (none, none, none)]

def exInsts : List (Cell × Cell) :=
  [(some "I1", some " United States "), (some "I2", some "NULL")]

def exRow : Row :=
  [("Author", some "Ann"), ("i10_index", some "3"),
   ("affiliation_display_name_2020", some "MIT"),
   ("affiliation_id_2020", some "I1"),
   ("affiliation_country_2020", some "stale"),
   ("affiliation_display_name_2021", some " ETH "),
   ("affiliation_id_2021", some "I9"),
   ("affiliation_country_2021", some "NULL"),
   ("all_usa", some "True")]

/-- A realizable author row whose display-name cell cleans to the pandas
NA token `N/A`: the first run writes `N/A`, the second run reads it back
as `NaN` and rebuilds different analytics. -/
def exNARow : Row :=
  [("i10_index", some "3"),
   ("affiliation_display_name_2020", some " N/A "),
   ("affiliation_id_2020", some "I1"),
   ("affiliation_country_2020", some "x")]

theorem subset_stepSet (E : List (String × String)) (s : Finset String) :
    s ⊆ stepSet E s :=
  Finset.subset_union_left

theorem mem_stepSet {E : List (String × String)} {s : Finset String} {b : String} :
    b ∈ stepSet E s ↔ b ∈ s ∨ ∃ e ∈ E, e.1 ∈ s ∧ e.2 = b := by
  simp [stepSet, List.mem_filter, and_assoc]

theorem reachSet_sound {E : List (String × String)} {a : String} :
    ∀ {n : Nat} {b : String}, b ∈ reachSet E a n → Reaches E a b := by
  intro n
  induction n with
  | zero =>
    intro b hb
    simp only [reachSet, Finset.mem_singleton] at hb
    subst hb
    exact Relation.ReflTransGen.refl
  | succ n ih =>
    intro b hb
    rcases mem_stepSet.mp hb with h | ⟨e, he, h1, h2⟩
    · exact ih h
    · subst h2
      exact Relation.ReflTransGen.tail (ih h1)
        (show EdgeStep E e.1 e.2 by simpa [EdgeStep] using he)

theorem reachSet_le_succ (E : List (String × String)) (a : String) (n : Nat) :
    reachSet E a n ⊆ reachSet E a (n + 1) :=
  subset_stepSet E _

theorem reachSet_mono (E : List (String × String)) (a : String) {m n : Nat}
    (h : m ≤ n) : reachSet E a m ⊆ reachSet E a n := by
  induction h with
  | refl => exact subset_rfl
  | step _ ih => exact ih.trans (reachSet_le_succ E a _)

theorem reachSet_subset_univ (E : List (String × String)) (a : String) :
    ∀ n : Nat, reachSet E a n ⊆ univSet E a := by
  intro n
  induction n with
  | zero =>
    intro b hb
    simp only [reachSet, Finset.mem_singleton] at hb
    simp [univSet, hb]
  | succ n ih =>
    intro b hb
    rcases mem_stepSet.mp hb with h | ⟨e, he, _, h2⟩
    · exact ih h
    · simp only [univSet, Finset.mem_insert, List.mem_toFinset, List.mem_map]
      exact Or.inr ⟨e, he, h2⟩

theorem reachSet_stab (E : List (String × String)) (a : String) (n : Nat)
    (h : reachSet E a (n + 1) = reachSet E a n) :
    ∀ k : Nat, reachSet E a (n + k) = reachSet E a n := by
  intro k
  induction k with
  | zero => rfl
  | succ k ih =>
    show stepSet E (reachSet E a (n + k)) = reachSet E a n
    rw [ih]
    exact h

theorem reachSet_card_or_fix (E : List (String × String)) (a : String) :
    ∀ n : Nat, reachSet E a (n + 1) = reachSet E a n ∨
      n + 1 ≤ (reachSet E a n).card := by
  intro n
  induction n with
  | zero =>
    right
    simp [reachSet]
  | succ n ih =>
    rcases ih with hfix | hcard
    · left
      show stepSet E (reachSet E a (n + 1)) = reachSet E a (n + 1)
      rw [hfix]
      exact hfix
    · by_cases heq : reachSet E a (n + 2) = reachSet E a (n + 1)
      · exact Or.inl heq
      · right
        by_cases hprev : reachSet E a (n + 1) = reachSet E a n
        · exact absurd (by
            show stepSet E (reachSet E a (n + 1)) = reachSet E a (n + 1)
            rw [hprev]; exact hprev) heq
        · have hss : reachSet E a n ⊂ reachSet E a (n + 1) :=
            lt_of_le_of_ne (reachSet_le_succ E a n) (Ne.symm hprev)
          have := Finset.card_lt_card hss
          omega

theorem reachSet_fix (E : List (String × String)) (a : String) :
    reachSet E a ((univSet E a).card + 1) = reachSet E a (univSet E a).card := by
  rcases reachSet_card_or_fix E a (univSet E a).card with h | h
  · exact h
  · have hle := Finset.card_le_card (reachSet_subset_univ E a (univSet E a).card)
    omega

theorem mem_reachCloseSet {E : List (String × String)} {a b : String} :
    b ∈ reachCloseSet E a ↔ Reaches E a b := by
  constructor
  · exact reachSet_sound
  · intro h
    induction h with
    | refl =>
      exact reachSet_mono E a (Nat.zero_le _) (by simp [reachSet])
    | tail _ hedge ih =>
      have hmem : _ ∈ reachSet E a ((univSet E a).card + 1) :=
        mem_stepSet.mpr (Or.inr ⟨_, hedge, ih, rfl⟩)
      rwa [reachSet_fix] at hmem

theorem mem_descendantsOf {E : List (String × String)} {a b : String} :
    b ∈ descendantsOf E a ↔ b ≠ a ∧ Reaches E a b := by
  rw [descendantsOf, Finset.mem_erase, mem_reachCloseSet]

theorem edgeStep_swap {E : List (String × String)} {a b : String} :
    EdgeStep (swapEdges E) a b ↔ EdgeStep E b a := by
  constructor
  · intro h
    rcases List.mem_map.mp h with ⟨e, he, hesw⟩
    have h1 : e.2 = a := congrArg Prod.fst hesw
    have h2 : e.1 = b := congrArg Prod.snd hesw
    simpa [EdgeStep, ← h1, ← h2] using he
  · intro h
    exact List.mem_map.mpr ⟨(b, a), h, rfl⟩

theorem reaches_swap {E : List (String × String)} {a b : String} :
    Reaches (swapEdges E) a b ↔ Reaches E b a := by
  constructor
  · intro h
    induction h with
    | refl => exact Relation.ReflTransGen.refl
    | tail _ hedge ih =>
      exact Relation.ReflTransGen.head (edgeStep_swap.mp hedge) ih
  · intro h
    induction h with
    | refl => exact Relation.ReflTransGen.refl
    | tail _ hedge ih =>
      exact Relation.ReflTransGen.head (edgeStep_swap.mpr hedge) ih

theorem mem_ancestorsOf {E : List (String × String)} {a b : String} :
    b ∈ ancestorsOf E a ↔ b ≠ a ∧ Reaches E b a := by
  rw [ancestorsOf, Finset.mem_erase, mem_reachCloseSet, reaches_swap]

theorem reaches_target_mem_nodes {df : List InstRow} {a b : String}
    (h : Reaches (graphEdges df) a b) (hne : b ≠ a) : b ∈ graphNodes df := by
  rcases Relation.ReflTransGen.cases_tail h with heq | ⟨c, _, hcb⟩
  · exact absurd heq hne
  · have : b ∈ (graphEdges df).map (·.2) := List.mem_map.mpr ⟨(c, b), hcb, rfl⟩
    simp only [graphNodes, List.mem_append]
    exact Or.inr this

theorem reaches_source_mem_nodes {df : List InstRow} {a b : String}
    (h : Reaches (graphEdges df) a b) (hne : b ≠ a) : a ∈ graphNodes df := by
  rcases Relation.ReflTransGen.cases_head h with heq | ⟨c, hac, _⟩
  · exact absurd heq.symm hne
  · have : a ∈ (graphEdges df).map (·.1) := List.mem_map.mpr ⟨(a, c), hac, rfl⟩
    simp only [graphNodes, List.mem_append]
    exact Or.inl (Or.inr this)

theorem fieldOf_cons (r : InstRow) (df : List InstRow) (f : InstRow → Int)
    (d : String) :
    fieldOf (r :: df) f d = if r.id = d then f r else fieldOf df f d := by
  by_cases h : r.id = d
  · simp [fieldOf, lookupRow, List.find?_cons, h]
  · simp [fieldOf, lookupRow, List.find?_cons, h]

theorem fieldOf_eq_zero {df : List InstRow} {f : InstRow → Int} {i : String}
    (h : i ∉ df.map (·.id)) : fieldOf df f i = 0 := by
  have hnone : lookupRow df i = none := by
    apply List.find?_eq_none.mpr
    intro r hr
    simp only [beq_iff_eq]
    intro heq
    exact h (List.mem_map.mpr ⟨r, hr, heq⟩)
  simp [fieldOf, hnone]

theorem sum_filter_eq_sum_lookup (df : List InstRow) (f : InstRow → Int)
    (D : Finset String) (hnd : (df.map (·.id)).Nodup) :
    ((df.filter (fun r => r.id ∈ D)).map f).sum = ∑ d ∈ D, fieldOf df f d := by
  induction df with
  | nil =>
    simp [fieldOf, lookupRow]
  | cons r df ih =>
    obtain ⟨hr, hnd'⟩ := List.nodup_cons.mp hnd
    have hz : fieldOf df f r.id = 0 := fieldOf_eq_zero hr
    have hcongr : ∑ d ∈ D, fieldOf (r :: df) f d =
        ∑ d ∈ D, (if r.id = d then f r else fieldOf df f d) :=
      Finset.sum_congr rfl (fun d _ => fieldOf_cons r df f d)
    by_cases hmem : r.id ∈ D
    · have hD : insert r.id (D.erase r.id) = D := Finset.insert_erase hmem
      rw [List.filter_cons_of_pos (by simpa using hmem), List.map_cons,
        List.sum_cons]
      rw [ih hnd', hcongr, ← hD, Finset.sum_insert (Finset.not_mem_erase _ _),
        Finset.sum_insert (Finset.not_mem_erase _ _), if_pos rfl, hz]
      have : ∑ d ∈ D.erase r.id, (if r.id = d then f r else fieldOf df f d) =
          ∑ d ∈ D.erase r.id, fieldOf df f d :=
        Finset.sum_congr rfl (fun d hd =>
          if_neg (fun heq => (Finset.mem_erase.mp hd).1 heq.symm))
      rw [this]
      ring
    · rw [List.filter_cons_of_neg (by simpa using hmem)]
      rw [ih hnd', hcongr]
      exact (Finset.sum_congr rfl (fun d hd =>
        if_neg (fun heq => hmem (by rw [heq]; exact hd)))).symm

/-- C1: for every institution id appearing in the enriched-institutions
table (with distinct row ids), `get_hierarchy_metrics` succeeds and its
`total_author_count` equals the institution's own `author_count` plus the
sum of `author_count` over its descendant set in the lineage graph, and
likewise `total_works_count` from `works_count` and `total_citations` from
`cited_by_count` over the same descendant set. -/
theorem hierarchy_metrics_totals (df : List InstRow) (institution_id : String)
    (hnd : (df.map (·.id)).Nodup) (hmem : institution_id ∈ df.map (·.id)) :
    ∃ m : HierarchyMetrics, get_hierarchy_metrics df institution_id = some m ∧
      m.total_author_count =
        fieldOf df (·.author_count) institution_id +
          ∑ d ∈ descendantsOf (graphEdges df) institution_id,
            fieldOf df (·.author_count) d ∧
      m.total_works_count =
        fieldOf df (·.works_count) institution_id +
          ∑ d ∈ descendantsOf (graphEdges df) institution_id,
            fieldOf df (·.works_count) d ∧
      m.total_citations =
        fieldOf df (·.cited_by_count) institution_id +
          ∑ d ∈ descendantsOf (graphEdges df) institution_id,
            fieldOf df (·.cited_by_count) d := by
  obtain ⟨r, hrdf, hrid⟩ := List.mem_map.mp hmem
  have hsome : (df.find? (fun r => r.id == institution_id)).isSome := by
    rw [List.find?_isSome]
    exact ⟨r, hrdf, by simp [hrid]⟩
  obtain ⟨inst, hfind⟩ := Option.isSome_iff_exists.mp hsome
  have hinstid : inst.id = institution_id := by
    have := List.find?_some hfind
    simpa using this
  have hnode : institution_id ∈ graphNodes df := by
    simp only [graphNodes, List.mem_append]
    exact Or.inl (Or.inl hmem)
  have hlin : get_full_lineage df institution_id =
      { ancestors := ancestorsOf (graphEdges df) institution_id
        descendants := descendantsOf (graphEdges df) institution_id } := by
    rw [get_full_lineage, if_pos hnode]
  have hfield : ∀ f : InstRow → Int, fieldOf df f institution_id = f inst := by
    intro f
    simp [fieldOf, lookupRow, hfind]
  refine ⟨_, by rw [get_hierarchy_metrics, hfind], ?_, ?_, ?_⟩ <;>
    simp only [hlin] <;>
    rw [sum_filter_eq_sum_lookup df _ _ hnd, hfield]

/-- C1 witness: the theorem applied to the concrete three-row table at id
`"A"`, whose descendants are `B` and `C`. -/
theorem hierarchy_metrics_totals_witness :
    ∃ m : HierarchyMetrics, get_hierarchy_metrics exInstDf "A" = some m ∧
      m.total_author_count =
        fieldOf exInstDf (·.author_count) "A" +
          ∑ d ∈ descendantsOf (graphEdges exInstDf) "A",
            fieldOf exInstDf (·.author_count) d ∧
      m.total_works_count =
        fieldOf exInstDf (·.works_count) "A" +
          ∑ d ∈ descendantsOf (graphEdges exInstDf) "A",
            fieldOf exInstDf (·.works_count) d ∧
      m.total_citations =
        fieldOf exInstDf (·.cited_by_count) "A" +
          ∑ d ∈ descendantsOf (graphEdges exInstDf) "A",
            fieldOf exInstDf (·.cited_by_count) d :=
  hierarchy_metrics_totals exInstDf "A" (by decide) (by decide)

/-- C2: for every id that is a node of the lineage graph,
`get_full_lineage` returns as descendants exactly the nodes, other than
the queried one, reachable from it along directed edges, as ancestors
exactly those from which it is reachable, and for any `b` the queried id
is among `b`'s ancestors if and only if `b` is among its descendants. -/
theorem full_lineage_reachability (df : List InstRow) (a : String)
    (h : a ∈ graphNodes df) :
    (∀ b, b ∈ (get_full_lineage df a).descendants ↔
      b ≠ a ∧ Reaches (graphEdges df) a b) ∧
    (∀ b, b ∈ (get_full_lineage df a).ancestors ↔
      b ≠ a ∧ Reaches (graphEdges df) b a) ∧
    (∀ b, a ∈ (get_full_lineage df b).ancestors ↔
      b ∈ (get_full_lineage df a).descendants) := by
  have hlin : get_full_lineage df a =
      { ancestors := ancestorsOf (graphEdges df) a
        descendants := descendantsOf (graphEdges df) a } := by
    rw [get_full_lineage, if_pos h]
  refine ⟨?_, ?_, ?_⟩
  · intro b
    rw [hlin]
    exact mem_descendantsOf
  · intro b
    rw [hlin]
    exact mem_ancestorsOf
  · intro b
    rw [hlin]
    by_cases hb : b ∈ graphNodes df
    · rw [get_full_lineage, if_pos hb]
      simp only [mem_ancestorsOf, mem_descendantsOf]
      constructor
      · rintro ⟨hne, hr⟩
        exact ⟨fun heq => hne heq.symm, hr⟩
      · rintro ⟨hne, hr⟩
        exact ⟨fun heq => hne heq.symm, hr⟩
    · rw [get_full_lineage, if_neg hb]
      simp only [Finset.not_mem_empty, false_iff, mem_descendantsOf]
      rintro ⟨hne, hr⟩
      exact hb (reaches_target_mem_nodes hr hne)

/-- C2 witness: the theorem applied to the concrete table at node `"A"`. -/
theorem full_lineage_reachability_witness :
    (∀ b, b ∈ (get_full_lineage exInstDf "A").descendants ↔
      b ≠ "A" ∧ Reaches (graphEdges exInstDf) "A" b) ∧
    (∀ b, b ∈ (get_full_lineage exInstDf "A").ancestors ↔
      b ≠ "A" ∧ Reaches (graphEdges exInstDf) b "A") ∧
    (∀ b, "A" ∈ (get_full_lineage exInstDf b).ancestors ↔
      b ∈ (get_full_lineage exInstDf "A").descendants) :=
  full_lineage_reachability exInstDf "A" (by decide)

/-- C10: `get_full_lineage` is total; on an id that is not a node of the
graph the `NetworkXError` branch returns empty ancestor and descendant
sets instead of propagating the exception. -/
theorem full_lineage_missing_node_empty (df : List InstRow) (i : String)
    (h : i ∉ graphNodes df) :
    get_full_lineage df i = { ancestors := ∅, descendants := ∅ } := by
  rw [get_full_lineage, if_neg h]

/-- C10 witness: a lookup on an id absent from the concrete graph. -/
theorem full_lineage_missing_node_empty_witness :
    get_full_lineage exInstDf "ZZZ" = { ancestors := ∅, descendants := ∅ } :=
  full_lineage_missing_node_empty exInstDf "ZZZ" (by decide)

theorem mem_keepFirstsAux {α : Type} [DecidableEq α] {x : α} :
    ∀ {l seen : List α}, x ∈ keepFirstsAux seen l ↔ x ∈ l ∧ x ∉ seen := by
  intro l
  induction l with
  | nil => intro seen; simp [keepFirstsAux]
  | cons a l ih =>
    intro seen
    simp only [keepFirstsAux]
    split_ifs with h
    · rw [ih]
      constructor
      · rintro ⟨hx, hs⟩
        exact ⟨List.mem_cons.mpr (Or.inr hx), hs⟩
      · rintro ⟨hx, hs⟩
        rcases List.mem_cons.mp hx with rfl | hx
        · exact absurd h hs
        · exact ⟨hx, hs⟩
    · simp only [List.mem_cons, ih]
      constructor
      · rintro (rfl | ⟨hx, hs⟩)
        · exact ⟨Or.inl rfl, h⟩
        · exact ⟨Or.inr hx, fun hxs => hs (Or.inr hxs)⟩
      · rintro ⟨rfl | hx, hs⟩
        · exact Or.inl rfl
        · by_cases hxa : x = a
          · exact Or.inl hxa
          · refine Or.inr ⟨hx, fun hxs => ?_⟩
            rcases hxs with h1 | h1
            · exact hxa h1
            · exact hs h1

theorem mem_keepFirsts {α : Type} [DecidableEq α] {x : α} {l : List α} :
    x ∈ keepFirsts l ↔ x ∈ l := by
  simp [keepFirsts, mem_keepFirstsAux]

theorem nodup_keepFirstsAux {α : Type} [DecidableEq α] :
    ∀ (l seen : List α), (keepFirstsAux seen l).Nodup := by
  intro l
  induction l with
  | nil => intro seen; simp [keepFirstsAux]
  | cons a l ih =>
    intro seen
    simp only [keepFirstsAux]
    split_ifs with h
    · exact ih seen
    · refine List.nodup_cons.mpr ⟨fun hmem => ?_, ih (a :: seen)⟩
      exact (mem_keepFirstsAux.mp hmem).2 (List.mem_cons_self a seen)

theorem nodup_keepFirsts {α : Type} [DecidableEq α] (l : List α) :
    (keepFirsts l).Nodup :=
  nodup_keepFirstsAux l []

theorem sorted_lt_of_sorted_le_nodup {l : List Int}
    (hs : l.Sorted (· ≤ ·)) (hn : l.Nodup) : l.Sorted (· < ·) :=
  (hs.and hn).imp (fun h => lt_of_le_of_ne h.1 h.2)

theorem sorted_groupedPapers (recs : List PaperRec) (p : String × String) :
    (groupedPapers recs p).Sorted (· < ·) := by
  have hperm := List.perm_insertionSort (α := Int) (· ≤ ·)
    (keepFirsts ((recs.filter (fun r => pairOf r = p)).map (·.paper_number)))
  exact sorted_lt_of_sorted_le_nodup
    (List.sorted_insertionSort _ _)
    (hperm.nodup_iff.mpr (nodup_keepFirsts _))

theorem mem_groupedPapers {recs : List PaperRec} {p : String × String} {x : Int} :
    x ∈ groupedPapers recs p ↔
      x ∈ (recs.filter (fun r => pairOf r = p)).map (·.paper_number) := by
  rw [groupedPapers,
    (List.perm_insertionSort (α := Int) (· ≤ ·) _).mem_iff, mem_keepFirsts]

theorem mem_filter_dedupTriples {recs : List PaperRec} {q : PaperRec → Bool}
    {r : PaperRec} :
    r ∈ (dedupTriples recs).filter q ↔ r ∈ recs.filter q := by
  simp only [List.mem_filter, dedupTriples, mem_keepFirsts]

/-- C3: after combining the per-paper metadata CSVs, the roster has
exactly one row per distinct `(author_name, author_id)` pair of the
inputs; each row's `No. Papers` equals the number of distinct paper
numbers in which the pair appears, and its `Papers` field is the
comma-separated listing of exactly those paper numbers in strictly
increasing order. -/
theorem combine_roster_rows (files : List (Int × List (String × String))) :
    ((combineRoster files).map (fun r => (r.author, r.oaProfile))).Nodup ∧
    (∀ p, p ∈ (combineRoster files).map (fun r => (r.author, r.oaProfile)) ↔
      p ∈ (allAuthors files).map pairOf) ∧
    (∀ row, row ∈ combineRoster files → ∃ L : List Int,
      L.Sorted (· < ·) ∧
      (∀ x, x ∈ L ↔ x ∈ papersOfPair (allAuthors files) (row.author, row.oaProfile)) ∧
      row.noPapers = (papersOfPair (allAuthors files) (row.author, row.oaProfile)).card ∧
      row.papersStr = String.intercalate ", " (L.map (fun n => toString n))) := by
  set recs := dedupTriples (allAuthors files) with hrecs
  have hmap : (combineRoster files).map (fun r => (r.author, r.oaProfile)) =
      groupKeys recs := by
    rw [combineRoster, List.map_map]
    exact List.map_congr_left (fun p _ => rfl) |>.trans (List.map_id _)
  have hkeysmem : ∀ p, p ∈ groupKeys recs ↔ p ∈ (allAuthors files).map pairOf := by
    intro p
    rw [groupKeys, (List.perm_insertionSort pairLe _).mem_iff, mem_keepFirsts]
    simp only [List.mem_map, hrecs, dedupTriples, mem_keepFirsts]
  refine ⟨?_, ?_, ?_⟩
  · rw [hmap, groupKeys]
    exact (List.perm_insertionSort pairLe _).nodup_iff.mpr (nodup_keepFirsts _)
  · intro p
    rw [hmap]
    exact hkeysmem p
  · intro row hrow
    rw [combineRoster, List.mem_map] at hrow
    obtain ⟨p, hp, rfl⟩ := hrow
    refine ⟨groupedPapers recs p, sorted_groupedPapers recs p, ?_, ?_, rfl⟩
    · intro x
      rw [mem_groupedPapers, papersOfPair, List.mem_toFinset]
      constructor
      · intro hx
        rcases List.mem_map.mp hx with ⟨r, hr, hxr⟩
        exact List.mem_map.mpr ⟨r, mem_filter_dedupTriples.mp hr, hxr⟩
      · intro hx
        rcases List.mem_map.mp hx with ⟨r, hr, hxr⟩
        exact List.mem_map.mpr ⟨r, mem_filter_dedupTriples.mpr hr, hxr⟩
    · show (groupedPapers recs p).length = _
      have hnd : (groupedPapers recs p).Nodup :=
        (List.perm_insertionSort (α := Int) (· ≤ ·) _).nodup_iff.mpr
          (nodup_keepFirsts _)
      have hset : papersOfPair (allAuthors files) (p.1, p.2) =
          (groupedPapers recs p).toFinset := by
        apply Finset.ext
        intro x
        rw [List.mem_toFinset, mem_groupedPapers, papersOfPair, List.mem_toFinset]
        constructor
        · intro hx
          rcases List.mem_map.mp hx with ⟨r, hr, hxr⟩
          exact List.mem_map.mpr ⟨r, mem_filter_dedupTriples.mpr hr, hxr⟩
        · intro hx
          rcases List.mem_map.mp hx with ⟨r, hr, hxr⟩
          exact List.mem_map.mpr ⟨r, mem_filter_dedupTriples.mp hr, hxr⟩
      rw [hset, List.toFinset_card_of_nodup hnd]

theorem filterMap_filter_isSome {α β : Type} (g : α → Option β) (q : α → Bool)
    (hq : ∀ a, q a = (g a).isSome) (l : List α) :
    (l.filter q).filterMap g = l.filterMap g := by
  induction l with
  | nil => rfl
  | cons a l ih =>
    rw [List.filter_cons]
    cases hga : g a with
    | some b =>
      have hqa : q a = true := by rw [hq, hga]; rfl
      simp only [hqa, if_true, List.filterMap_cons, hga, ih]
    | none =>
      have hqa : q a = false := by rw [hq, hga]; rfl
      simp only [hqa, Bool.false_eq_true, if_false, List.filterMap_cons, hga, ih]

/-- C4 counterexample: a single input author whose works fetch returns two
works yields two output rows, so the works-scraper stage's output row
count exceeds its input row count. -/
theorem works_scraper_rows_exceed_input :
    ¬ ((step4OutputRows exAuthors exRespTwoWorks 5).length ≤ exAuthors.length) := by
  decide

/-- C5 counterexample: a missing `Raw Author Name` column is not caught
and skipped — `step1.1_filternames.py` executes `raise KeyError(...)` at
top level, a fatal failure beyond the missing-input-file ones the claim
allows. -/
theorem missing_column_fatal :
    filter_names (fun _ => true) exNoRawCol =
      Except.error "Column 'Raw Author Name' not found" := by
  rw [filter_names, if_neg (by decide)]

/-- C5 (amended): failures are caught and the offending row skipped — the
profile scraper's `get_author_data` turns any raised exception into `None`
and the enrichment loop then contributes nothing for exactly the failed
rows — except that, besides missing required input files, a missing
`Raw Author Name` column in the name-filter script raises `KeyError` and
halts (`filter_names` succeeds exactly when the column is present). -/
theorem failures_caught_except_missing_column
    (rowMatch : Option String → Bool) (df : NameTable)
    (rows : List RosterIn) (fetch : String → Except String AuthorData)
    (oa_id : String) (err : String) (hf : fetch oa_id = Except.error err) :
    ((∃ t, filter_names rowMatch df = Except.ok t) ↔ "Raw Author Name" ∈ df.cols) ∧
    get_author_data fetch oa_id = none ∧
    enrich_author_rows rows fetch =
      enrich_author_rows
        (rows.filter (fun r => (get_author_data fetch r.oaId).isSome)) fetch := by
  refine ⟨?_, ?_, ?_⟩
  · constructor
    · rintro ⟨t, ht⟩
      by_contra h
      rw [filter_names, if_neg h] at ht
      exact Except.noConfusion ht
    · intro h
      exact ⟨_, by rw [filter_names, if_pos h]⟩
  · simp [get_author_data, hf]
  · simp only [enrich_author_rows]
    refine (filterMap_filter_isSome _ _ (fun r => ?_) rows).symm
    cases h : get_author_data fetch r.oaId <;> simp [h]

/-- C5 witness: the amended theorem at a concrete missing-column table and
a fetch that always raises. -/
theorem failures_caught_except_missing_column_witness :
    ((∃ t, filter_names (fun _ => true) exNoRawCol = Except.ok t) ↔
      "Raw Author Name" ∈ exNoRawCol.cols) ∧
    get_author_data exFetchFail "A1" = none ∧
    enrich_author_rows [exRosterIn] exFetchFail =
      enrich_author_rows
        ([exRosterIn].filter
          (fun r => (get_author_data exFetchFail r.oaId).isSome)) exFetchFail :=
  failures_caught_except_missing_column (fun _ => true) exNoRawCol
    [exRosterIn] exFetchFail "A1" "boom" rfl

/-- C6 counterexample: the first page succeeds with one work and names a
second cursor, the second page returns HTTP 500 — yet the author's row
still contributes the first page's work to the output, i.e. a non-200
status does not make the row contribute nothing. -/
theorem works_non200_partial_row :
    (exResp206 "c2").status ≠ 200 ∧
    step4OutputRows exAuthors (fun _ => exResp206) 5 =
      [("https://openalex.org/A1", "W1")] ∧
    step4OutputRows exAuthors (fun _ => exResp206) 5 ≠ [] := by
  refine ⟨by decide, by decide, by decide⟩

/-- C6 (amended): a non-200 status on the *first* page makes the works
fetch contribute nothing for that author, and a non-200 ORCID page leaves
the author row completely unchanged (it is written with no partial ORCID
data); a non-200 on a later pagination page instead truncates fetching,
and the earlier pages' works are still written. -/
theorem non200_first_page_skips_row
    (resp : String → PageResp) (fuel : Nat)
    (pages : String → OrcidPage) (a : OrcidAuthorRow)
    (h1 : (resp "*").status ≠ 200)
    (h2 : (pages (pyStrip a.orcid)).status ≠ 200) :
    fetch_all_works resp fuel (some "*") = [] ∧
    processOrcidRow pages a = a := by
  constructor
  · cases fuel with
    | zero => rfl
    | succ n =>
      rw [fetch_all_works, if_neg (by decide), if_pos h1]
  · rw [processOrcidRow]
    split_ifs with hc
    · rw [scrape_orcid_profile, if_pos h2]
    · rfl

/-- C6 witness: the amended theorem at a failing first page and a failing
ORCID page server. -/
theorem non200_first_page_skips_row_witness :
    fetch_all_works exRespFail 3 (some "*") = [] ∧
    processOrcidRow exOrcidPages exOrcidRow = exOrcidRow :=
  non200_first_page_skips_row exRespFail 3 exOrcidPages exOrcidRow
    (by decide) (by decide)

theorem destutterPrime_head {R : String → String → Prop} [DecidableRel R]
    (l : List String) : ∀ a : String, ∃ t, List.destutter' R a l = a :: t := by
  induction l with
  | nil => intro a; exact ⟨[], by simp⟩
  | cons b l ih =>
    intro a
    by_cases h : R a b
    · exact ⟨List.destutter' R b l, List.destutter'_cons_pos (R := R) l h⟩
    · obtain ⟨t, ht⟩ := ih a
      exact ⟨t, by rw [List.destutter'_cons_neg (R := R) l h, ht]⟩

theorem dedupConsecAux_some_eq (l : List String) :
    ∀ a, dedupConsecAux (some a) l = (List.destutter' (· ≠ ·) a l).tail := by
  induction l with
  | nil => intro a; simp [dedupConsecAux]
  | cons b l ih =>
    intro a
    by_cases h : b = a
    · subst h
      rw [dedupConsecAux, if_pos rfl,
        List.destutter'_cons_neg l (by simp : ¬ b ≠ b), ih b]
    · rw [dedupConsecAux, if_neg (fun hc => h (Option.some.inj hc)),
        List.destutter'_cons_pos l (Ne.symm h), List.tail_cons, ih b]
      obtain ⟨t, ht⟩ := destutterPrime_head (R := (· ≠ ·)) l b
      rw [ht, List.tail_cons]

theorem dedupConsecAux_none_eq (l : List String) :
    dedupConsecAux none l = l.destutter (· ≠ ·) := by
  cases l with
  | nil => rfl
  | cons x l =>
    rw [dedupConsecAux, if_neg (by simp), List.destutter_cons',
      dedupConsecAux_some_eq l x]
    obtain ⟨t, ht⟩ := destutterPrime_head (R := (· ≠ ·)) l x
    rw [ht, List.tail_cons]

theorem countrySequence_years_sublist (cells : List (Nat × Option String)) :
    List.Sublist ((countrySequence cells).map (·.1)) (cells.map (·.1)) := by
  induction cells with
  | nil => simp [countrySequence]
  | cons yc t ih =>
    rw [countrySequence, List.filterMap_cons]
    cases h : yc.2 with
    | none =>
      simp only [Option.map_none', List.map_cons]
      exact List.Sublist.cons _ ih
    | some c =>
      simp only [Option.map_some', List.map_cons]
      exact List.Sublist.cons₂ _ ih

/-- C7: for every author row (with the distinct per-year columns of the
pipeline), the `Geographic Trajectory` string is obtained from the
`(year, country)` pairs of the non-null country cells, sorted ascending by
year, with each country equal to its immediate predecessor removed
(`destutter (· ≠ ·)`) and the remainder joined with `" ---> "`; and
`Years in the US` counts `"United States"` in the full unreduced
sequence. -/
theorem trajectory_string_and_us_years (author oaProfile : String)
    (cells : List (Nat × Option String))
    (hnd : (cells.map (·.1)).Nodup) :
    ∃ seq : List (Nat × String),
      seq.Sorted (fun p q => p.1 < q.1) ∧
      seq.Perm (countrySequence cells) ∧
      ((process_author_row author oaProfile cells).geoTrajectory =
        if (seq.map (·.2)).destutter (· ≠ ·) = [] then none
        else some (String.intercalate " ---> " ((seq.map (·.2)).destutter (· ≠ ·)))) ∧
      (process_author_row author oaProfile cells).yearsInUS =
        (seq.map (·.2)).count "United States" := by
  refine ⟨List.insertionSort fstLe (countrySequence cells), ?_,
    List.perm_insertionSort _ _, ?_, ?_⟩
  · have hle : (List.insertionSort fstLe (countrySequence cells)).Sorted fstLe :=
      List.sorted_insertionSort _ _
    have h1 : ((countrySequence cells).map (·.1)).Nodup :=
      hnd.sublist (countrySequence_years_sublist cells)
    have hndseq :
        ((List.insertionSort fstLe (countrySequence cells)).map (·.1)).Nodup :=
      (((List.perm_insertionSort fstLe (countrySequence cells)).map (·.1)).nodup_iff).mpr h1
    have hne : (List.insertionSort fstLe (countrySequence cells)).Pairwise
        (fun p q => p.1 ≠ q.1) := List.pairwise_map.mp hndseq
    exact (hle.and hne).imp (fun h => lt_of_le_of_ne h.1 h.2)
  · simp only [process_author_row]
    rw [dedupConsecAux_none_eq]
  · simp only [process_author_row, List.count, List.countP_map]
    rfl

/-- C7 witness: the theorem at the concrete cells
`2019 China, 2020 China, 2021 United States, 2022 NaN`. -/
theorem trajectory_string_and_us_years_witness :
    ∃ seq : List (Nat × String),
      seq.Sorted (fun p q => p.1 < q.1) ∧
      seq.Perm (countrySequence exCells) ∧
      ((process_author_row "Ann" "https://openalex.org/A1" exCells).geoTrajectory =
        if (seq.map (·.2)).destutter (· ≠ ·) = [] then none
        else some (String.intercalate " ---> " ((seq.map (·.2)).destutter (· ≠ ·)))) ∧
      (process_author_row "Ann" "https://openalex.org/A1" exCells).yearsInUS =
        (seq.map (·.2)).count "United States" :=
  trajectory_string_and_us_years "Ann" "https://openalex.org/A1" exCells (by decide)

/-- C8: in step8, `all_china` holds iff the author has at least one
affiliation country and every one equals `China`, and `some_china` /
`some_usa` hold iff `China` / `United States` appears among them; in the
sorting step the four flags (`all_usa`, `some_usa`, `all_china`,
`some_china`) are characterised the same way over that row's collected
country values, and an author with no country data has all four false. -/
theorem china_usa_flags (cmap : String → String)
    (idCells : List (Option String)) (yearData : List YearTriple) :
    ((step8Flags cmap idCells).all_china = true ↔
      get_unique_countries cmap idCells ≠ [] ∧
        ∀ c ∈ get_unique_countries cmap idCells, c = "China") ∧
    ((step8Flags cmap idCells).some_china = true ↔
      "China" ∈ get_unique_countries cmap idCells) ∧
    ((step8Flags cmap idCells).some_usa = true ↔
      "United States" ∈ get_unique_countries cmap idCells) ∧
    ((insert_analytics yearData).all_usa = true ↔
      step9Countries yearData ≠ [] ∧
        ∀ c ∈ step9Countries yearData, c = "United States") ∧
    ((insert_analytics yearData).all_china = true ↔
      step9Countries yearData ≠ [] ∧
        ∀ c ∈ step9Countries yearData, c = "China") ∧
    ((insert_analytics yearData).some_usa = true ↔
      "United States" ∈ step9Countries yearData) ∧
    ((insert_analytics yearData).some_china = true ↔
      "China" ∈ step9Countries yearData) ∧
    (step9Countries yearData = [] →
      (insert_analytics yearData).all_usa = false ∧
      (insert_analytics yearData).some_usa = false ∧
      (insert_analytics yearData).all_china = false ∧
      (insert_analytics yearData).some_china = false) := by
  refine ⟨?_, ?_, ?_, ?_, ?_, ?_, ?_, ?_⟩
  · simp [step8Flags, List.isEmpty_iff, List.all_eq_true]
  · simp [step8Flags, List.elem_iff]
  · simp [step8Flags, List.elem_iff]
  · simp [insert_analytics, List.isEmpty_iff, List.all_eq_true]
  · simp [insert_analytics, List.isEmpty_iff, List.all_eq_true]
  · simp [insert_analytics, List.any_eq_true]
  · simp [insert_analytics, List.any_eq_true]
  · intro h
    simp [insert_analytics, h]

/-- C8 witness: the theorem at concrete id cells, institution map and
per-year data. -/
theorem china_usa_flags_witness :
    ((step8Flags exCmap exIdCells).all_china = true ↔
      get_unique_countries exCmap exIdCells ≠ [] ∧
        ∀ c ∈ get_unique_countries exCmap exIdCells, c = "China") ∧
    ((step8Flags exCmap exIdCells).some_china = true ↔
      "China" ∈ get_unique_countries exCmap exIdCells) ∧
    ((step8Flags exCmap exIdCells).some_usa = true ↔
      "United States" ∈ get_unique_countries exCmap exIdCells) ∧
    ((insert_analytics exYearData).all_usa = true ↔
      step9Countries exYearData ≠ [] ∧
        ∀ c ∈ step9Countries exYearData, c = "United States") ∧
    ((insert_analytics exYearData).all_china = true ↔
      step9Countries exYearData ≠ [] ∧
        ∀ c ∈ step9Countries exYearData, c = "China") ∧
    ((insert_analytics exYearData).some_usa = true ↔
      "United States" ∈ step9Countries exYearData) ∧
    ((insert_analytics exYearData).some_china = true ↔
      "China" ∈ step9Countries exYearData) ∧
    (step9Countries exYearData = [] →
      (insert_analytics exYearData).all_usa = false ∧
      (insert_analytics exYearData).some_usa = false ∧
      (insert_analytics exYearData).all_china = false ∧
      (insert_analytics exYearData).some_china = false) :=
  china_usa_flags exCmap exIdCells exYearData

theorem head?_dropWhile_false {p : Char → Bool} {c : Char} :
    ∀ {l : List Char}, (l.dropWhile p).head? = some c → p c = false := by
  intro l
  induction l with
  | nil => intro h; simp [List.dropWhile] at h
  | cons a t ih =>
    intro h
    rw [List.dropWhile_cons] at h
    by_cases hp : p a
    · rw [if_pos hp] at h
      exact ih h
    · rw [if_neg hp] at h
      have : a = c := by simpa using h
      subst this
      simpa using hp

theorem dropWhile_eq_self_of_head_false {p : Char → Bool} {l : List Char}
    (h : ∀ c, l.head? = some c → p c = false) : l.dropWhile p = l := by
  cases l with
  | nil => rfl
  | cons a t =>
    rw [List.dropWhile_cons, if_neg]
    simp [h a rfl]

theorem strip_head_false (l : List Char) :
    ∀ c, (pyStripList l).head? = some c → Char.isWhitespace c = false := by
  intro c hc
  have hsuf : List.IsSuffix
      ((l.dropWhile Char.isWhitespace).reverse.dropWhile Char.isWhitespace)
      (l.dropWhile Char.isWhitespace).reverse := List.dropWhile_suffix _
  have hpre : List.IsPrefix (pyStripList l) (l.dropWhile Char.isWhitespace) := by
    have := List.reverse_prefix.mpr hsuf
    simpa [pyStripList] using this
  obtain ⟨t, ht⟩ := hpre
  apply head?_dropWhile_false (p := Char.isWhitespace) (l := l)
  rw [← ht]
  cases hpl : pyStripList l with
  | nil => rw [hpl] at hc; simp at hc
  | cons a s =>
    rw [hpl] at hc
    have : a = c := by simpa using hc
    subst this
    simp

theorem pyStripList_idem (l : List Char) :
    pyStripList (pyStripList l) = pyStripList l := by
  have h1 : (pyStripList l).dropWhile Char.isWhitespace = pyStripList l :=
    dropWhile_eq_self_of_head_false (fun c hc => strip_head_false l c hc)
  show (((pyStripList l).dropWhile Char.isWhitespace).reverse.dropWhile
      Char.isWhitespace).reverse = pyStripList l
  rw [h1]
  have h2 : (pyStripList l).reverse =
      (l.dropWhile Char.isWhitespace).reverse.dropWhile Char.isWhitespace := by
    rw [pyStripList, List.reverse_reverse]
  rw [h2, List.dropWhile_idempotent, ← h2, List.reverse_reverse]

theorem mem_pyStripList {l : List Char} {c : Char} (h : c ∈ pyStripList l) :
    c ∈ l := by
  rw [pyStripList, List.mem_reverse] at h
  have h2 := ((List.dropWhile_suffix (l := (l.dropWhile Char.isWhitespace).reverse)
    Char.isWhitespace).sublist).subset h
  rw [List.mem_reverse] at h2
  exact ((List.dropWhile_suffix Char.isWhitespace).sublist).subset h2

theorem toList_pyStrip (s : String) : (pyStrip s).toList = pyStripList s.toList :=
  rfl

theorem pyStrip_asString (x : List Char) :
    pyStrip x.asString = (pyStripList x).asString :=
  rfl

/-- `clean_text` is idempotent on cells. -/
theorem clean_text_idem (v : Cell) : clean_text (clean_text v) = clean_text v := by
  cases v with
  | none => rfl
  | some s =>
    rw [clean_text]
    set t := s.toList.filter (fun c => !isInvisibleChar c) with hT
    set s1 := pyStrip (String.mk t) with hs1
    by_cases hcond : pyUpper s1 = "NULL" ∨ s1 = ""
    · rw [if_pos hcond]
      rfl
    · rw [if_neg hcond, clean_text]
      have hs1l : s1.toList = pyStripList t := rfl
      have hfilter : s1.toList.filter (fun c => !isInvisibleChar c) = s1.toList := by
        apply List.filter_eq_self.mpr
        intro c hc
        rw [hs1l] at hc
        have : c ∈ t := mem_pyStripList hc
        rw [hT] at this
        exact (List.mem_filter.mp this).2
      have hs1' : pyStrip (String.mk (s1.toList.filter (fun c => !isInvisibleChar c))) = s1 := by
        rw [hfilter, hs1l]
        show pyStrip (String.mk (pyStripList t)) = s1
        have : String.mk (pyStripList t) = (pyStripList t).asString := rfl
        rw [this, pyStrip_asString, pyStripList_idem]
        rw [hs1]
        rfl
      rw [hs1']
      rw [if_neg hcond]

/-- The CSV round trip is the identity on a row none of whose cells is a
pandas NA token (cells that survive `rtCell` unchanged). -/
theorem rtRow_eq_self {r : Row} (h : ∀ p ∈ r, rtCell p.2 = p.2) :
    rtRow r = r := by
  rw [rtRow]
  conv_rhs => rw [show r = r.map id from (List.map_id r).symm]
  apply List.map_congr_left
  intro p hp
  rw [h p hp]
  rfl

/-- C3 witness: the theorem applied to the concrete two-paper input. -/
theorem combine_roster_rows_witness :
    ((combineRoster exFiles).map (fun r => (r.author, r.oaProfile))).Nodup ∧
    (∀ p, p ∈ (combineRoster exFiles).map (fun r => (r.author, r.oaProfile)) ↔
      p ∈ (allAuthors exFiles).map pairOf) ∧
    (∀ row, row ∈ combineRoster exFiles → ∃ L : List Int,
      L.Sorted (· < ·) ∧
      (∀ x, x ∈ L ↔ x ∈ papersOfPair (allAuthors exFiles) (row.author, row.oaProfile)) ∧
      row.noPapers = (papersOfPair (allAuthors exFiles) (row.author, row.oaProfile)).card ∧
      row.papersStr = String.intercalate ", " (L.map (fun n => toString n))) :=
  combine_roster_rows exFiles

theorem cleanRow_names (r : Row) : (cleanRow r).map (·.1) = r.map (·.1) := by
  rw [cleanRow, List.map_map]
  rfl

theorem rtRow_names (r : Row) : (rtRow r).map (·.1) = r.map (·.1) := by
  rw [rtRow, List.map_map]
  rfl

theorem setCol_names (r : Row) (c : String) (v : Cell) :
    (setCol r c v).map (·.1) = r.map (·.1) := by
  rw [setCol, List.map_map]
  apply List.map_congr_left
  intro p _
  by_cases h : p.1 = c <;> simp [h]

theorem updateYear_names (insts : List (Cell × Cell)) (cols : List String)
    (y : Nat) (r : Row) :
    (updateYear insts cols y r).map (·.1) = r.map (·.1) := by
  rw [updateYear]
  cases hc : colFor "affiliation_country_" cols y with
  | none => rfl
  | some ccol =>
    cases hi : colFor "affiliation_id_" cols y with
    | none => rfl
    | some icol => exact setCol_names r ccol _

theorem foldl_updateYear_names (insts : List (Cell × Cell)) (cols : List String)
    (ys : List Nat) :
    ∀ r : Row, ((ys.foldl (fun acc y => updateYear insts cols y acc) r).map (·.1)) =
      r.map (·.1) := by
  induction ys with
  | nil => intro r; rfl
  | cons y ys ih =>
    intro r
    exact (ih (updateYear insts cols y r)).trans (updateYear_names insts cols y r)

theorem updateCountries_names (insts : List (Cell × Cell)) (cols : List String)
    (r : Row) : (updateCountries insts cols r).map (·.1) = r.map (·.1) :=
  foldl_updateYear_names insts cols (validYears cols) r

theorem rowGet_setCol_ne {r : Row} {c n : String} {v : Cell} (h : n ≠ c) :
    rowGet (setCol r c v) n = rowGet r n := by
  induction r with
  | nil => rfl
  | cons p r ih =>
    have hstep : setCol (p :: r) c v =
        (if p.1 = c then (p.1, v) else p) :: setCol r c v := rfl
    rw [hstep]
    by_cases hp : p.1 = c
    · rw [if_pos hp]
      have h1 : (p.1 == n) = false := by simp [hp, Ne.symm h]
      rw [rowGet, rowGet]
      simp only [List.find?_cons, h1]
      exact ih
    · rw [if_neg hp, rowGet, rowGet]
      simp only [List.find?_cons]
      cases hb : (p.1 == n) with
      | true => simp only [hb]
      | false =>
        simp only [hb]
        exact ih

theorem cleanRow_cells_fixed (r : Row) :
    ∀ p ∈ cleanRow r, clean_text p.2 = p.2 := by
  intro p hp
  rw [cleanRow, List.mem_map] at hp
  obtain ⟨q, _, rfl⟩ := hp
  exact clean_text_idem q.2

theorem cleanRow_eq_self {r : Row} (h : ∀ p ∈ r, clean_text p.2 = p.2) :
    cleanRow r = r := by
  rw [cleanRow]
  refine (List.map_congr_left ?_).trans (List.map_id r)
  intro p hp
  simp [h p hp]

theorem dropAnalytics_cells_fixed {r : Row}
    (h : ∀ p ∈ r, clean_text p.2 = p.2) :
    ∀ p ∈ dropAnalytics r, clean_text p.2 = p.2 := by
  intro p hp
  exact h p (List.mem_of_mem_filter hp)

theorem mapCountry_clean_fixed (insts : List (Cell × Cell)) (v : Cell) :
    clean_text (mapCountry insts v) = mapCountry insts v := by
  cases v with
  | none => rfl
  | some x =>
    rw [mapCountry]
    cases h : instInfo insts x with
    | none => rfl
    | some c =>
      rw [instInfo] at h
      obtain ⟨p, hfind, hpc⟩ := Option.map_eq_some'.mp h
      have hmem := List.mem_of_find?_eq_some hfind
      rw [List.mem_reverse] at hmem
      obtain ⟨q, _, hq⟩ := List.mem_map.mp hmem
      have hq2 : clean_text q.2 = p.2 := congrArg Prod.snd hq
      rw [← hpc, ← hq2, clean_text_idem]

theorem setCol_cells_fixed {r : Row} {c : String} {v : Cell}
    (h : ∀ p ∈ r, clean_text p.2 = p.2) (hv : clean_text v = v) :
    ∀ p ∈ setCol r c v, clean_text p.2 = p.2 := by
  intro p hp
  rw [setCol, List.mem_map] at hp
  obtain ⟨q, hq, rfl⟩ := hp
  by_cases hqc : q.1 = c
  · rw [if_pos hqc]
    exact hv
  · rw [if_neg hqc]
    exact h q hq

theorem updateYear_cells_fixed {insts : List (Cell × Cell)} {cols : List String}
    {y : Nat} {r : Row} (h : ∀ p ∈ r, clean_text p.2 = p.2) :
    ∀ p ∈ updateYear insts cols y r, clean_text p.2 = p.2 := by
  rw [updateYear]
  cases hc : colFor "affiliation_country_" cols y with
  | none => exact h
  | some ccol =>
    cases hi : colFor "affiliation_id_" cols y with
    | none => exact h
    | some icol => exact setCol_cells_fixed h (mapCountry_clean_fixed insts _)

theorem updateCountries_cells_fixed {insts : List (Cell × Cell)}
    {cols : List String} {r : Row} (h : ∀ p ∈ r, clean_text p.2 = p.2) :
    ∀ p ∈ updateCountries insts cols r, clean_text p.2 = p.2 := by
  rw [updateCountries]
  generalize validYears cols = ys
  induction ys generalizing r with
  | nil => exact h
  | cons y ys ih => exact ih (updateYear_cells_fixed h)

theorem mem_yearCols {pre : String} {cols : List String} {e : Nat × String}
    (h : e ∈ yearCols pre cols) : yearOfCol pre e.2 = some e.1 := by
  rw [yearCols] at h
  obtain ⟨col, _, heq⟩ := List.mem_filterMap.mp h
  obtain ⟨yy, hyy, hpair⟩ := Option.map_eq_some'.mp heq
  rw [← hpair]
  exact hyy

theorem colFor_year {pre : String} {cols : List String} {y : Nat} {c : String}
    (h : colFor pre cols y = some c) : yearOfCol pre c = some y := by
  rw [colFor] at h
  obtain ⟨p, hfind, hp2⟩ := Option.map_eq_some'.mp h
  have hy : p.1 = y := by simpa using List.find?_some hfind
  have hmem := List.mem_of_find?_eq_some hfind
  rw [List.mem_reverse] at hmem
  have := mem_yearCols hmem
  rw [hp2, hy] at this
  exact this

theorem colFor_inj {pre : String} {cols : List String} {y y' : Nat} {c : String}
    (h : colFor pre cols y = some c) (h' : colFor pre cols y' = some c) :
    y = y' := by
  have h1 := colFor_year h
  have h2 := colFor_year h'
  rw [h1] at h2
  exact Option.some.inj h2

theorem yearOfCol_isPre {pre s : String} {y : Nat}
    (h : yearOfCol pre s = some y) : pre.toList.isPrefixOf s.toList = true := by
  by_cases hp : pre.toList.isPrefixOf s.toList
  · exact hp
  · rw [yearOfCol, if_neg hp] at h
    exact Option.noConfusion h

theorem id_country_clash {s : String} {y y' : Nat}
    (h1 : yearOfCol "affiliation_id_" s = some y)
    (h2 : yearOfCol "affiliation_country_" s = some y') : False := by
  have p1 := yearOfCol_isPre h1
  have p2 := yearOfCol_isPre h2
  rw [List.isPrefixOf_iff_prefix] at p1 p2
  obtain ⟨t1, ht1⟩ := p1
  obtain ⟨t2, ht2⟩ := p2
  have h13 : (("affiliation_id_".toList ++ t1).take 13) =
      (("affiliation_country_".toList ++ t2).take 13) := by rw [ht1, ht2]
  rw [List.take_append_of_le_length (by decide),
    List.take_append_of_le_length (by decide)] at h13
  exact absurd h13 (by decide)

theorem icol_ne_ccol {cols : List String} {y y' : Nat} {icol ccol : String}
    (hi : colFor "affiliation_id_" cols y = some icol)
    (hc : colFor "affiliation_country_" cols y' = some ccol) : icol ≠ ccol := by
  intro heq
  subst heq
  exact id_country_clash (colFor_year hi) (colFor_year hc)

theorem rowGet_updateYear_id {insts : List (Cell × Cell)} {cols : List String}
    {y y' : Nat} {r : Row} {icol : String}
    (hi : colFor "affiliation_id_" cols y = some icol) :
    rowGet (updateYear insts cols y' r) icol = rowGet r icol := by
  rw [updateYear]
  cases hc : colFor "affiliation_country_" cols y' with
  | none => rfl
  | some ccol =>
    cases hi' : colFor "affiliation_id_" cols y' with
    | none => rfl
    | some icol' => exact rowGet_setCol_ne (icol_ne_ccol hi hc)

theorem goodYear_after_update {insts : List (Cell × Cell)} {cols : List String}
    {y : Nat} {r : Row} :
    goodYear insts cols y (updateYear insts cols y r) := by
  intro ccol icol hc hi p hp hpc
  rw [updateYear] at hp
  simp only [hc, hi] at hp
  rw [updateYear]
  simp only [hc, hi]
  rw [rowGet_setCol_ne (icol_ne_ccol hi hc)]
  rw [setCol, List.mem_map] at hp
  obtain ⟨q, _, rfl⟩ := hp
  by_cases hqc : q.1 = ccol
  · rw [if_pos hqc]
  · rw [if_neg hqc] at hpc
    exact absurd hpc hqc

theorem goodYear_update_preserve {insts : List (Cell × Cell)}
    {cols : List String} {y y' : Nat} {r : Row} (hne : y ≠ y')
    (hg : goodYear insts cols y r) :
    goodYear insts cols y (updateYear insts cols y' r) := by
  intro ccol icol hc hi p hp hpc
  rw [updateYear] at hp ⊢
  cases hc' : colFor "affiliation_country_" cols y' with
  | none =>
    simp only [hc'] at hp ⊢
    exact hg ccol icol hc hi p hp hpc
  | some ccol' =>
    cases hi' : colFor "affiliation_id_" cols y' with
    | none =>
      simp only [hc', hi'] at hp ⊢
      exact hg ccol icol hc hi p hp hpc
    | some icol' =>
      simp only [hc', hi'] at hp ⊢
      rw [rowGet_setCol_ne (icol_ne_ccol hi hc')]
      have hccne : ccol ≠ ccol' := fun heq => hne (colFor_inj hc (heq ▸ hc'))
      rw [setCol, List.mem_map] at hp
      obtain ⟨q, hq, rfl⟩ := hp
      by_cases hqc : q.1 = ccol'
      · rw [if_pos hqc] at hpc
        exact absurd (hpc.symm.trans hqc) hccne
      · rw [if_neg hqc] at hpc ⊢
        exact hg ccol icol hc hi q hq hpc

theorem goodYear_fold_preserve {insts : List (Cell × Cell)}
    {cols : List String} {y : Nat} {ys : List Nat} :
    ∀ {z : Row}, goodYear insts cols y z → y ∉ ys →
      goodYear insts cols y
        (ys.foldl (fun acc y => updateYear insts cols y acc) z) := by
  induction ys with
  | nil => intro z hg _; exact hg
  | cons y0 ys ih =>
    intro z hg hy
    have hne : y ≠ y0 := fun h => hy (h ▸ List.mem_cons_self y0 ys)
    exact ih (goodYear_update_preserve hne hg)
      (fun h => hy (List.mem_cons.mpr (Or.inr h)))

theorem goodYear_fold_establish {insts : List (Cell × Cell)}
    {cols : List String} :
    ∀ (ys : List Nat), ys.Nodup → ∀ (z : Row), ∀ y ∈ ys,
      goodYear insts cols y
        (ys.foldl (fun acc y => updateYear insts cols y acc) z) := by
  intro ys
  induction ys with
  | nil => intro _ z y h; exact absurd h (List.not_mem_nil y)
  | cons y0 ys ih =>
    intro hnd z y hy
    obtain ⟨h0, hnd'⟩ := List.nodup_cons.mp hnd
    rcases List.mem_cons.mp hy with rfl | hy'
    · rw [List.foldl_cons]
      exact goodYear_fold_preserve goodYear_after_update h0
    · rw [List.foldl_cons]
      exact ih hnd' (updateYear insts cols y0 z) y hy'

theorem fold_of_goodYear {insts : List (Cell × Cell)} {cols : List String} :
    ∀ (ys : List Nat) (z : Row), (∀ y ∈ ys, goodYear insts cols y z) →
      ys.foldl (fun acc y => updateYear insts cols y acc) z = z := by
  intro ys
  induction ys with
  | nil => intro z _; rfl
  | cons y0 ys ih =>
    intro z hg
    have h0 : updateYear insts cols y0 z = z := by
      rw [updateYear]
      cases hc : colFor "affiliation_country_" cols y0 with
      | none => rfl
      | some ccol =>
        cases hi : colFor "affiliation_id_" cols y0 with
        | none => rfl
        | some icol =>
          show setCol z ccol (mapCountry insts (rowGet z icol)) = z
          rw [setCol]
          refine (List.map_congr_left ?_).trans (List.map_id z)
          intro p hp
          by_cases hpc : p.1 = ccol
          · rw [if_pos hpc]
            have := hg y0 (List.mem_cons_self y0 ys) ccol icol hc hi p hp hpc
            rw [← this]
            simp
          · rw [if_neg hpc]
            rfl
    show ys.foldl _ (updateYear insts cols y0 z) = z
    rw [h0]
    exact ih z (fun y hy => hg y (List.mem_cons.mpr (Or.inr hy)))

theorem validYears_nodup (cols : List String) : (validYears cols).Nodup := by
  rw [validYears]
  exact (List.perm_insertionSort natGe _).nodup_iff.mpr (nodup_keepFirsts _)

theorem updateCountries_stable (insts : List (Cell × Cell))
    (cols : List String) (r : Row) :
    updateCountries insts cols (updateCountries insts cols r) =
      updateCountries insts cols r := by
  rw [updateCountries, updateCountries]
  exact fold_of_goodYear _ _
    (goodYear_fold_establish (validYears cols) (validYears_nodup cols) r)

theorem filterMap_filter_none {α β : Type} (g : α → Option β) (q : α → Bool)
    (l : List α) (h : ∀ x ∈ l, q x = false → g x = none) :
    (l.filter q).filterMap g = l.filterMap g := by
  induction l with
  | nil => rfl
  | cons a l ih =>
    have ih' := ih (fun x hx => h x (List.mem_cons.mpr (Or.inr hx)))
    cases hq : q a with
    | true =>
      rw [List.filter_cons_of_pos (by rw [hq])]
      cases hga : g a with
      | none =>
        rw [List.filterMap_cons_none hga, List.filterMap_cons_none hga]
        exact ih'
      | some b =>
        rw [List.filterMap_cons_some hga, List.filterMap_cons_some hga, ih']
    | false =>
      rw [List.filter_cons_of_neg (by simp [hq])]
      rw [List.filterMap_cons_none (h a (List.mem_cons_self a l) hq)]
      exact ih'

theorem yearOfCol_analytics :
    ∀ n ∈ analyticsNames, yearOfCol "affiliation_id_" n = none ∧
      yearOfCol "affiliation_country_" n = none ∧
      yearOfCol "affiliation_display_name_" n = none := by
  decide

theorem yearCols_analytics {pre : String}
    (hpre : ∀ n ∈ analyticsNames, yearOfCol pre n = none) :
    yearCols pre analyticsNames = [] := by
  rw [yearCols]
  rw [List.filterMap_eq_nil_iff]
  intro n hn
  rw [hpre n hn]
  rfl

theorem yearCols_append (pre : String) (l1 l2 : List String) :
    yearCols pre (l1 ++ l2) = yearCols pre l1 ++ yearCols pre l2 := by
  rw [yearCols, yearCols, yearCols, List.filterMap_append]

theorem yearCols_dropFilter {pre : String}
    (hpre : ∀ n ∈ analyticsNames, yearOfCol pre n = none) (ns : List String) :
    yearCols pre (ns.filter (fun n => !analyticsNames.contains n)) =
      yearCols pre ns := by
  rw [yearCols, yearCols]
  apply filterMap_filter_none
  intro x _ hq
  have hmem : x ∈ analyticsNames := by
    have : analyticsNames.contains x = true := by
      cases hcx : analyticsNames.contains x with
      | true => rfl
      | false => rw [hcx] at hq; simp at hq
    exact List.elem_iff.mp this
  rw [hpre x hmem]
  rfl

theorem analyticsCells_names (a : AnalyticsOut) :
    (analyticsCells a).map (·.1) = analyticsNames :=
  rfl

theorem dropAnalytics_append (l1 l2 : Row) :
    dropAnalytics (l1 ++ l2) = dropAnalytics l1 ++ dropAnalytics l2 := by
  rw [dropAnalytics, dropAnalytics, dropAnalytics, List.filter_append]

theorem dropAnalytics_names_all {l : Row}
    (h : ∀ p ∈ l, p.1 ∈ analyticsNames) : dropAnalytics l = [] := by
  rw [dropAnalytics, List.filter_eq_nil_iff]
  intro p hp
  simp [h p hp]

theorem dropAnalytics_eq_self {l : Row}
    (h : ∀ p ∈ l, p.1 ∉ analyticsNames) : dropAnalytics l = l := by
  rw [dropAnalytics]
  apply List.filter_eq_self.mpr
  intro p hp
  simp only [Bool.not_eq_true']
  cases hc : analyticsNames.contains p.1 with
  | false => rfl
  | true => exact absurd (List.elem_iff.mp hc) (h p hp)

theorem dropAnalytics_names (r : Row) :
    (dropAnalytics r).map (·.1) =
      (r.map (·.1)).filter (fun n => !analyticsNames.contains n) := by
  rw [dropAnalytics, List.filter_map]
  rfl

theorem cleanRow_append (l1 l2 : Row) :
    cleanRow (l1 ++ l2) = cleanRow l1 ++ cleanRow l2 := by
  rw [cleanRow, cleanRow, cleanRow, List.map_append]

theorem foldl_updateYear_congr {insts : List (Cell × Cell)}
    {cols1 cols2 : List String}
    (h : ∀ (y : Nat) (z : Row),
      updateYear insts cols1 y z = updateYear insts cols2 y z) :
    ∀ (ys : List Nat) (z : Row),
      ys.foldl (fun acc y => updateYear insts cols1 y acc) z =
        ys.foldl (fun acc y => updateYear insts cols2 y acc) z := by
  intro ys
  induction ys with
  | nil => intro z; rfl
  | cons y ys ih =>
    intro z
    rw [List.foldl_cons, List.foldl_cons, h y z]
    exact ih _

theorem processRow_idem (insts : List (Cell × Cell)) (r : Row) :
    processRow insts (processRow insts r) = processRow insts r := by
  have hfix : ∀ p ∈ updatedOf insts r, clean_text p.2 = p.2 := by
    rw [updatedOf]
    exact updateCountries_cells_fixed (dropAnalytics_cells_fixed (cleanRow_cells_fixed r))
  have hclean_upd : cleanRow (updatedOf insts r) = updatedOf insts r :=
    cleanRow_eq_self hfix
  have hc2 : cleanRow (processRow insts r) =
      insertAt (updatedOf insts r)
        ((updatedOf insts r).findIdx (fun p => p.1 == "i10_index") + 1)
        (cleanRow (analyticsCells
          (insert_analytics (yearDataOf (colsOf r) (updatedOf insts r))))) := by
    rw [processRow, insertAt, insertAt, cleanRow_append,
      cleanRow_append]
    have ht : cleanRow ((updatedOf insts r).take
        ((updatedOf insts r).findIdx (fun p => p.1 == "i10_index") + 1)) =
        (updatedOf insts r).take
          ((updatedOf insts r).findIdx (fun p => p.1 == "i10_index") + 1) := by
      rw [cleanRow, List.map_take,
        show List.map (fun p => (p.1, clean_text p.2)) (updatedOf insts r) =
          cleanRow (updatedOf insts r) from rfl, hclean_upd]
    have hd : cleanRow ((updatedOf insts r).drop
        ((updatedOf insts r).findIdx (fun p => p.1 == "i10_index") + 1)) =
        (updatedOf insts r).drop
          ((updatedOf insts r).findIdx (fun p => p.1 == "i10_index") + 1) := by
      rw [cleanRow, List.map_drop,
        show List.map (fun p => (p.1, clean_text p.2)) (updatedOf insts r) =
          cleanRow (updatedOf insts r) from rfl, hclean_upd]
    rw [ht, hd]
  have hupd_names : (updatedOf insts r).map (·.1) =
      (colsOf r).filter (fun n => !analyticsNames.contains n) := by
    rw [updatedOf, updateCountries_names, dropAnalytics_names, colsOf]
  have hyearCols : ∀ pre, (∀ n ∈ analyticsNames, yearOfCol pre n = none) →
      yearCols pre (colsOf (processRow insts r)) =
        yearCols pre (colsOf r) := by
    intro pre hpre
    rw [colsOf, hc2, insertAt, List.map_append, List.map_append,
      cleanRow_names, analyticsCells_names, yearCols_append, yearCols_append,
      yearCols_analytics hpre, List.append_nil, ← yearCols_append,
      ← List.map_append, List.take_append_drop, hupd_names,
      yearCols_dropFilter hpre]
  have hyid := hyearCols "affiliation_id_"
    (fun n hn => (yearOfCol_analytics n hn).1)
  have hyc := hyearCols "affiliation_country_"
    (fun n hn => (yearOfCol_analytics n hn).2.1)
  have hyn := hyearCols "affiliation_display_name_"
    (fun n hn => (yearOfCol_analytics n hn).2.2)
  have hvy : validYears (colsOf (processRow insts r)) =
      validYears (colsOf r) := by
    rw [validYears, validYears, hyid, hyc, hyn]
  have hcfI : ∀ y, colFor "affiliation_id_" (colsOf (processRow insts r)) y =
      colFor "affiliation_id_" (colsOf r) y := by
    intro y
    rw [colFor, colFor, hyid]
  have hcfC : ∀ y, colFor "affiliation_country_" (colsOf (processRow insts r)) y =
      colFor "affiliation_country_" (colsOf r) y := by
    intro y
    rw [colFor, colFor, hyc]
  have hcfN : ∀ y, colFor "affiliation_display_name_" (colsOf (processRow insts r)) y =
      colFor "affiliation_display_name_" (colsOf r) y := by
    intro y
    rw [colFor, colFor, hyn]
  have hdropped2 : dropAnalytics (cleanRow (processRow insts r)) =
      updatedOf insts r := by
    rw [hc2, insertAt, dropAnalytics_append, dropAnalytics_append,
      dropAnalytics_names_all (l := cleanRow (analyticsCells _)) ?hblock,
      List.append_nil, ← dropAnalytics_append, List.take_append_drop,
      dropAnalytics_eq_self ?hupd]
    case hblock =>
      intro p hp
      have hm : p.1 ∈ (cleanRow (analyticsCells
          (insert_analytics (yearDataOf (colsOf r) (updatedOf insts r))))).map (·.1) :=
        List.mem_map_of_mem _ hp
      rw [cleanRow_names, analyticsCells_names] at hm
      exact hm
    case hupd =>
      intro p hp hmem
      have h1 : p.1 ∈ (updatedOf insts r).map (·.1) := List.mem_map_of_mem _ hp
      rw [hupd_names] at h1
      have h2 := (List.mem_filter.mp h1).2
      simp at h2
      exact h2 hmem
  have hupdY : ∀ y z, updateYear insts (colsOf (processRow insts r)) y z =
      updateYear insts (colsOf r) y z := by
    intro y z
    rw [updateYear, updateYear, hcfC y, hcfI y]
  have hfoldEq := foldl_updateYear_congr hupdY
  have hstab : updateCountries insts (colsOf r) (updatedOf insts r) =
      updatedOf insts r := by
    rw [updatedOf, updateCountries, updateCountries]
    exact fold_of_goodYear _ _
      (goodYear_fold_establish (validYears (colsOf r))
        (validYears_nodup (colsOf r)) (dropAnalytics (cleanRow r)))
  have hupdated2 : updatedOf insts (processRow insts r) =
      updatedOf insts r := by
    rw [updatedOf, hdropped2, updateCountries, hvy, hfoldEq, ← updateCountries,
      hstab]
  have hyd : yearDataOf (colsOf (processRow insts r))
      (updatedOf insts (processRow insts r)) =
      yearDataOf (colsOf r) (updatedOf insts r) := by
    rw [hupdated2, yearDataOf, yearDataOf, hvy]
    apply List.map_congr_left
    intro y _
    rw [hcfI y, hcfC y, hcfN y]
  calc processRow insts (processRow insts r)
      = insertAt (updatedOf insts (processRow insts r))
          ((updatedOf insts (processRow insts r)).findIdx
            (fun p => p.1 == "i10_index") + 1)
          (analyticsCells (insert_analytics
            (yearDataOf (colsOf (processRow insts r))
              (updatedOf insts (processRow insts r))))) := rfl
    _ = insertAt (updatedOf insts r)
          ((updatedOf insts r).findIdx (fun p => p.1 == "i10_index") + 1)
          (analyticsCells (insert_analytics
            (yearDataOf (colsOf r) (updatedOf insts r)))) := by
        rw [hyd, hupdated2]
    _ = processRow insts r := rfl

/-- C9 counterexample: the round trip is not benign.  In `exNARow` the
display-name cell cleans to the pandas NA token `N/A`; the first run
writes it, the second run reads it back as `NaN`, and the rebuilt row
differs (its `Most Recent Affiliation` and display-name cells are now
empty), so `process_folder` is not idempotent on realizable files. -/
theorem process_folder_na_token_divergence :
    processRow exInsts (rtRow (processRow exInsts exNARow)) ≠
      processRow exInsts exNARow := by
  decide

/-- C9 (amended): running step9's per-row transformation a second time on
the row it has just produced yields the identical row, provided no cell
of that row is one of pandas' default NA strings (so the CSV write/read
round trip returns each cell unchanged); under that proviso
`process_folder` rebuilds an identical author file: the previously
inserted analytics columns are dropped before recomputation, and
recomputation on the already-cleaned, already-updated data reproduces the
same values at the same positions.  A cell that cleans to an NA token
such as `N/A` is read back as `NaN` by the second run, which then
produces a different file. -/
theorem process_folder_idempotent_no_na (insts : List (Cell × Cell)) (r : Row)
    (h : ∀ p ∈ processRow insts r, rtCell p.2 = p.2) :
    processRow insts (rtRow (processRow insts r)) = processRow insts r := by
  rw [rtRow_eq_self h]
  exact processRow_idem insts r

/-- C9 witness: the amended idempotence at a concrete row and institution
table, every cell of whose output survives the round trip. -/
theorem process_folder_idempotent_no_na_witness :
    processRow exInsts (rtRow (processRow exInsts exRow)) =
      processRow exInsts exRow :=
  process_folder_idempotent_no_na exInsts exRow (by decide)

theorem keepFirstsAux_length_le {α : Type} [DecidableEq α] :
    ∀ (l seen : List α), (keepFirstsAux seen l).length ≤ l.length := by
  intro l
  induction l with
  | nil => intro seen; exact Nat.le_refl 0
  | cons a l ih =>
    intro seen
    rw [keepFirstsAux]
    split_ifs with h
    · exact Nat.le_succ_of_le (ih seen)
    · exact Nat.succ_le_succ (ih (a :: seen))

/-- C4 (amended): every stage that reshapes an existing table row by row —
combining the per-paper CSVs, profile enrichment, the career-trajectory
step, the sorting/enrichment step, and the name filter — outputs at most
as many rows as its input; the works-scraper stage, which emits one output
row per (author, work) pair, can exceed its input row count (see the
counterexample). -/
theorem row_counts_bounded_outside_works_scraper
    (files : List (Int × List (String × String)))
    (rows2 : List RosterIn) (fetch : String → Except String AuthorData)
    (rows10 : List TrajInRow) (insts : List (Cell × Cell)) (rows9 : List Row)
    (m : Option String → Bool) (df t : NameTable)
    (ht : filter_names m df = Except.ok t) :
    (combineRoster files).length ≤ (allAuthors files).length ∧
    (enrich_author_rows rows2 fetch).length ≤ rows2.length ∧
    (trajectoryRows rows10).length ≤ rows10.length ∧
    (rows9.map (fun row => processRow insts row)).length = rows9.length ∧
    t.rows.length ≤ df.rows.length := by
  refine ⟨?_, ?_, ?_, List.length_map _ _, ?_⟩
  · rw [combineRoster, List.length_map, groupKeys,
      (List.perm_insertionSort pairLe _).length_eq, keepFirsts]
    calc (keepFirstsAux []
          ((dedupTriples (allAuthors files)).map pairOf)).length
        ≤ ((dedupTriples (allAuthors files)).map pairOf).length :=
          keepFirstsAux_length_le _ []
      _ = (dedupTriples (allAuthors files)).length := List.length_map _ _
      _ ≤ (allAuthors files).length := keepFirstsAux_length_le _ []
  · exact List.length_filterMap_le _ _
  · rw [trajectoryRows, List.length_map]
    exact List.length_filter_le _ _
  · by_cases h : "Raw Author Name" ∈ df.cols
    · rw [filter_names, if_pos h] at ht
      have h2 := Except.ok.inj ht
      rw [← h2]
      exact List.length_filter_le _ _
    · rw [filter_names, if_neg h] at ht
      exact Except.noConfusion ht

/-- C4 witness: the amended theorem at concrete inputs for every stage. -/
theorem row_counts_bounded_outside_works_scraper_witness :
    (combineRoster exFiles).length ≤ (allAuthors exFiles).length ∧
    (enrich_author_rows [exRosterIn] exFetchFail).length ≤ [exRosterIn].length ∧
    (trajectoryRows []).length ≤ ([] : List TrajInRow).length ∧
    ([exRow].map (fun row => processRow exInsts row)).length = [exRow].length ∧
    exRawTable.rows.length ≤ exRawTable.rows.length :=
  row_counts_bounded_outside_works_scraper exFiles [exRosterIn] exFetchFail
    [] exInsts [exRow] (fun _ => true) exRawTable exRawTable (by rfl)

end OpenAlex
